import Mathlib

/-!
A verification development for the monitor subsystem of ovsdb-etcd
(package `ovsdb`: `monitor.go` / handler sources).

The Go sources are shallowly embedded:
* Go `interface{}` values produced by `json.Unmarshal` (and the OVSDB value
  wrappers `libovsdb.OvsMap` / `libovsdb.OvsSet` stored into delta rows) are
  modelled by the inductive type `GoVal`; byte payloads are modelled at the
  parse-tree level, so a malformed or non-object payload is any non-`obj`
  `GoVal`.
* Go maps (`map[string]interface{}`, `Key2Updaters`, the accumulators of
  `prepareTableUpdate`) are modelled as association lists with first-match
  lookup; Go map assignment is `assocSet` (replace the binding if the key is
  present, append otherwise) and `delete` is `assocErase`.
* Mutating methods become pure state transformers.
-/

namespace OvsdbEtcdMonitor

/-! ## Association-list primitives (the model of Go maps) -/

/-- First-match lookup, the model of `v, ok := m[k]` on a Go map. -/
def assocGet {κ α : Type} [DecidableEq κ] : List (κ × α) → κ → Option α
  | [], _ => none
  | (k0, v0) :: rest, k => if k0 = k then some v0 else assocGet rest k

/-- Go map assignment `m[k] = v`: replace the first binding of `k`,
append a new binding when `k` is absent. -/
def assocSet {κ α : Type} [DecidableEq κ] : List (κ × α) → κ → α → List (κ × α)
  | [], k, v => [(k, v)]
  | (k0, v0) :: rest, k, v =>
    if k0 = k then (k, v) :: rest else (k0, v0) :: assocSet rest k v

/-- Go map deletion `delete(m, k)`. -/
def assocErase {κ α : Type} [DecidableEq κ] (l : List (κ × α)) (k : κ) : List (κ × α) :=
  l.filter (fun p => decide ¬(p.1 = k))

/-- The keys of an association list are pairwise distinct (always true of the
association lists that model Go maps, whose keys are unique). -/
def KeysNodup {κ α : Type} (l : List (κ × α)) : Prop :=
  (l.map Prod.fst).Nodup

instance {κ α : Type} [DecidableEq κ] (l : List (κ × α)) : Decidable (KeysNodup l) := by
  unfold KeysNodup; infer_instance

/-! ## Dynamic values (`interface{}`) -/

/-- The dynamic values held in decoded rows and delta rows.  The first six
constructors are the JSON parse trees produced by `json.Unmarshal` into
`map[string]interface{}` (numbers are abstracted to `Int`); `omap` and `oset`
are the `*libovsdb.OvsMap` / `*libovsdb.OvsSet` values that the diff engine
stores into a delta row.  Equality of `GoVal` models `reflect.DeepEqual`. -/
inductive GoVal : Type where
  | null : GoVal
  | boolean : Bool → GoVal
  | num : Int → GoVal
  | str : String → GoVal
  | arr : List GoVal → GoVal
  | obj : List (String × GoVal) → GoVal
  | omap : List (GoVal × GoVal) → GoVal
  | oset : List GoVal → GoVal
  deriving Repr

mutual

/-- Decidable equality on `GoVal` (the model of `reflect.DeepEqual`). -/
def GoVal.decEq : (a b : GoVal) → Decidable (a = b)
  | .null, .null => isTrue rfl
  | .boolean x, .boolean y =>
    if h : x = y then isTrue (by rw [h])
    else isFalse (by intro hh; cases hh; exact h rfl)
  | .num x, .num y =>
    if h : x = y then isTrue (by rw [h])
    else isFalse (by intro hh; cases hh; exact h rfl)
  | .str x, .str y =>
    if h : x = y then isTrue (by rw [h])
    else isFalse (by intro hh; cases hh; exact h rfl)
  | .arr xs, .arr ys =>
    match GoVal.decEqL xs ys with
    | isTrue h => isTrue (by rw [h])
    | isFalse h => isFalse (by intro hh; cases hh; exact h rfl)
  | .obj xs, .obj ys =>
    match GoVal.decEqSL xs ys with
    | isTrue h => isTrue (by rw [h])
    | isFalse h => isFalse (by intro hh; cases hh; exact h rfl)
  | .omap xs, .omap ys =>
    match GoVal.decEqPL xs ys with
    | isTrue h => isTrue (by rw [h])
    | isFalse h => isFalse (by intro hh; cases hh; exact h rfl)
  | .oset xs, .oset ys =>
    match GoVal.decEqL xs ys with
    | isTrue h => isTrue (by rw [h])
    | isFalse h => isFalse (by intro hh; cases hh; exact h rfl)
  | .null, .boolean _ | .null, .num _ | .null, .str _ | .null, .arr _
  | .null, .obj _ | .null, .omap _ | .null, .oset _
  | .boolean _, .null | .boolean _, .num _ | .boolean _, .str _ | .boolean _, .arr _
  | .boolean _, .obj _ | .boolean _, .omap _ | .boolean _, .oset _
  | .num _, .null | .num _, .boolean _ | .num _, .str _ | .num _, .arr _
  | .num _, .obj _ | .num _, .omap _ | .num _, .oset _
  | .str _, .null | .str _, .boolean _ | .str _, .num _ | .str _, .arr _
  | .str _, .obj _ | .str _, .omap _ | .str _, .oset _
  | .arr _, .null | .arr _, .boolean _ | .arr _, .num _ | .arr _, .str _
  | .arr _, .obj _ | .arr _, .omap _ | .arr _, .oset _
  | .obj _, .null | .obj _, .boolean _ | .obj _, .num _ | .obj _, .str _
  | .obj _, .arr _ | .obj _, .omap _ | .obj _, .oset _
  | .omap _, .null | .omap _, .boolean _ | .omap _, .num _ | .omap _, .str _
  | .omap _, .arr _ | .omap _, .obj _ | .omap _, .oset _
  | .oset _, .null | .oset _, .boolean _ | .oset _, .num _ | .oset _, .str _
  | .oset _, .arr _ | .oset _, .obj _ | .oset _, .omap _ =>
    isFalse (by intro hh; cases hh)
termination_by structural a _ => a

/-- Decidable equality on lists of `GoVal`. -/
def GoVal.decEqL : (xs ys : List GoVal) → Decidable (xs = ys)
  | [], [] => isTrue rfl
  | [], _ :: _ => isFalse (by intro hh; cases hh)
  | _ :: _, [] => isFalse (by intro hh; cases hh)
  | x :: xs, y :: ys =>
    match GoVal.decEq x y with
    | isFalse h => isFalse (by intro hh; cases hh; exact h rfl)
    | isTrue h1 =>
      match GoVal.decEqL xs ys with
      | isTrue h2 => isTrue (by rw [h1, h2])
      | isFalse h => isFalse (by intro hh; cases hh; exact h rfl)
termination_by structural xs _ => xs

/-- Decidable equality on lists of `String × GoVal` pairs. -/
def GoVal.decEqSL : (xs ys : List (String × GoVal)) → Decidable (xs = ys)
  | [], [] => isTrue rfl
  | [], _ :: _ => isFalse (by intro hh; cases hh)
  | _ :: _, [] => isFalse (by intro hh; cases hh)
  | (s1, v1) :: xs, (s2, v2) :: ys =>
    if hs : s1 = s2 then
      match GoVal.decEq v1 v2 with
      | isFalse h => isFalse (by intro hh; cases hh; exact h rfl)
      | isTrue hv =>
        match GoVal.decEqSL xs ys with
        | isTrue h2 => isTrue (by rw [hs, hv, h2])
        | isFalse h => isFalse (by intro hh; cases hh; exact h rfl)
    else isFalse (by intro hh; cases hh; exact hs rfl)
termination_by structural xs _ => xs

/-- Decidable equality on lists of `GoVal × GoVal` pairs. -/
def GoVal.decEqPL : (xs ys : List (GoVal × GoVal)) → Decidable (xs = ys)
  | [], [] => isTrue rfl
  | [], _ :: _ => isFalse (by intro hh; cases hh)
  | _ :: _, [] => isFalse (by intro hh; cases hh)
  | (k1, v1) :: xs, (k2, v2) :: ys =>
    match GoVal.decEq k1 k2 with
    | isFalse h => isFalse (by intro hh; cases hh; exact h rfl)
    | isTrue hk =>
      match GoVal.decEq v1 v2 with
      | isFalse h => isFalse (by intro hh; cases hh; exact h rfl)
      | isTrue hv =>
        match GoVal.decEqPL xs ys with
        | isTrue h2 => isTrue (by rw [hk, hv, h2])
        | isFalse h => isFalse (by intro hh; cases hh; exact h rfl)
termination_by structural xs _ => xs

end

instance : DecidableEq GoVal := GoVal.decEq

/-- A decoded row: the model of Go `map[string]interface{}`. -/
abbrev RowMap := List (String × GoVal)

/-- Go's `m[k]` read without the `ok` flag: a missing key yields the zero
`interface{}` value, which coincides with the decoding of JSON `null`. -/
def goIndex (m : RowMap) (k : String) : GoVal :=
  (assocGet m k).getD .null

/-! ## Schema and monitor-request types

The packages `libovsdb`, `ovsjson` and `common` are referenced by the monitor
sources but are not among the provided sources; the definitions below marked
"Modelled from the spec" reconstruct the narrow interface the monitor consumes
from the specification's words. -/

/-- Modelled from the spec: the schema's type tag for a column, "a type tag
from scalar, set, map" (spec section 3); `libovsdb.TypeMap` / `libovsdb.TypeSet`
are the two non-scalar tags `compareModifiedRows` compares against, every other
tag is a scalar. -/
inductive ColumnType : Type where
  | typeMap : ColumnType
  | typeSet : ColumnType
  | typeScalar : ColumnType
  deriving DecidableEq, Repr

/-- Modelled from the spec: `libovsdb.ColumnSchema`, the per-column type
information the diff engine dispatches on.  The field is named `colType`
because `Type` is reserved in Lean. -/
structure ColumnSchema : Type where
  colType : ColumnType
  deriving DecidableEq, Repr

/-- Modelled from the spec: `libovsdb.TableSchema` maps column names to their
column schemas. -/
structure TableSchema : Type where
  columns : List (String × ColumnSchema)
  deriving DecidableEq, Repr

/-- Modelled from the spec: `TableSchema.LookupColumn` yields a column's schema
or a `SchemaLookupError` "if a column is absent from the schema" (spec
section 4.2). -/
def TableSchema.LookupColumn (ts : TableSchema) (column : String) :
    Except String ColumnSchema :=
  match assocGet ts.columns column with
  | some cs => .ok cs
  | none => .error ("no schema for column " ++ column)

/-- Modelled from the spec: `libovsdb.MonitorSelect` with tri-state flags,
"each tri-state: true/false/absent" (spec section 3). -/
structure MonitorSelect : Type where
  Initial : Option Bool := none
  Insert : Option Bool := none
  Delete : Option Bool := none
  Modify : Option Bool := none
  deriving DecidableEq, Repr

/-- Modelled from the spec: `libovsdb.MSIsTrue`; "when the flag is absent,
treat as true (OVSDB default)" (spec section 4.3). -/
def MSIsTrue : Option Bool → Bool
  | none => true
  | some b => b

/-- Modelled from the spec: `ovsjson.MonitorCondRequest`, a column projection
plus selection flags (`where` clauses are not evaluated by the core). -/
structure MonitorCondRequest : Type where
  Columns : List String := []
  Select : Option MonitorSelect := none
  deriving DecidableEq, Repr

/-- The `updater` struct of `monitor.go`.  `notificationType` is carried only
for logging and is omitted.  In Go `mcr.Select` is a pointer which
`mcrToUpdater` guarantees non-nil; the accessor `sel` below models the
dereference, reading a nil `Select` as the all-absent `MonitorSelect`. -/
structure updater : Type where
  mcr : MonitorCondRequest
  tableSchema : TableSchema
  isV1 : Bool
  jasonValueStr : String
  deriving DecidableEq, Repr

/-- The dereference of the `u.mcr.Select` pointer. -/
def updater.sel (u : updater) : MonitorSelect :=
  u.mcr.Select.getD {}

/-- `mcrToUpdater` (monitor.go): replaces an absent `Select` by the default
(all-absent) `MonitorSelect` and packs the updater. -/
def mcrToUpdater (mcr : MonitorCondRequest) (jsonValue : String)
    (tableSchema : TableSchema) (isV1 : Bool) : updater :=
  let mcr1 := match mcr.Select with
    | none => { mcr with Select := some {} }
    | some _ => mcr
  { mcr := mcr1, jasonValueStr := jsonValue, isV1 := isV1, tableSchema := tableSchema }

/-- Modelled from the spec: `ovsjson.RowUpdate` — "At most one of New, Old (v1)
or Initial, Insert, Modify, Delete (v2/v3) is populated per row per
notification; Delete: true is the sole field for v2/v3 delete" (spec
section 6). -/
structure RowUpdate : Type where
  New : Option RowMap := none
  Old : Option RowMap := none
  Initial : Option RowMap := none
  Insert : Option RowMap := none
  Delete : Bool := false
  Modify : Option RowMap := none
  deriving DecidableEq, Repr

/-- Modelled from the spec: `libovsdb.OvsMap`, a decoded map-column value;
`GoMap` models the Go map `map[interface{}]interface{}`. -/
structure OvsMap : Type where
  GoMap : List (GoVal × GoVal)
  deriving DecidableEq, Repr

/-- Modelled from the spec: `libovsdb.OvsSet`, a decoded set-column value. -/
structure OvsSet : Type where
  GoSet : List GoVal
  deriving DecidableEq, Repr

/-! ## Row codec -/

/-- Modelled from the spec: the reserved row field `_uuid` (spec section 3);
the constant `COL_UUID` is defined outside the provided monitor sources. -/
def COL_UUID : String := "_uuid"

/-- `unmarshalData` (monitor.go): `json.Unmarshal` of the stored payload into
`map[string]interface{}`.  At the parse-tree level this succeeds exactly on
JSON objects; malformed bytes and non-object payloads are the non-`obj`
values. -/
def unmarshalData (data : GoVal) : Except String RowMap :=
  match data with
  | .obj fields => .ok fields
  | _ => .error "json: cannot unmarshal value into map"

/-- `getAndDeleteUUID` (monitor.go): requires the `_uuid` field to be a
two-element array whose second element is a string, removes the field from the
row and returns the UUID string.  The Go function mutates `data`; the model
returns the updated row. -/
def getAndDeleteUUID (data : RowMap) : Except String (String × RowMap) :=
  match assocGet data COL_UUID with
  | none => .error ("row doesn't contain " ++ COL_UUID)
  | some uuidInt =>
    let data1 := assocErase data COL_UUID
    match uuidInt with
    | .arr uuid =>
      match uuid with
      | [_, .str uuidStr] => .ok (uuidStr, data1)
      | _ => .error "wrong uuid type"
    | _ => .error "wrong uuid type"

/-- `deleteUnselectedColumns` (monitor.go): when the projection is non-empty,
keep only the projected columns that are present in the row. -/
def updater.deleteUnselectedColumns (u : updater) (data : RowMap) : RowMap :=
  if u.mcr.Columns.length ≠ 0 then
    u.mcr.Columns.foldl (fun newData column =>
      match assocGet data column with
      | some value => assocSet newData column value
      | none => newData) []
  else data

/-- `prepareRow` (monitor.go): unmarshal, split off the UUID, project. -/
def updater.prepareRow (u : updater) (value : GoVal) :
    Except String (RowMap × String) :=
  match unmarshalData value with
  | .error e => .error e
  | .ok data =>
    match getAndDeleteUUID data with
    | .error e => .error e
    | .ok (uuid, data1) => .ok (u.deleteUnselectedColumns data1, uuid)

/-! ## Diff engine -/

/-- Decodes the pair list of an OVSDB wire map: every element must itself be a
two-element array `[key, value]`. -/
def decodeMapPairs : List GoVal → Except String (List (GoVal × GoVal))
  | [] => .ok []
  | .arr [k, v] :: rest =>
    match decodeMapPairs rest with
    | .ok tail => .ok ((k, v) :: tail)
    | .error e => .error e
  | _ :: _ => .error "malformed map pair"

/-- Modelled from the spec: `ColumnSchema.UnmarshalMap` of package `libovsdb`
is not among the provided sources.  Spec section 4.2: "Decode both sides into
key-to-value maps."  The OVSDB wire format encodes a map column as the
two-element array whose first element is the tag string "map" and whose second
element is the array of `[key, value]` pairs; any other shape is a
`DecodeError`. -/
def ColumnSchema.UnmarshalMap (_cs : ColumnSchema) (data : GoVal) :
    Except String OvsMap :=
  match data with
  | .arr [.str "map", .arr pairs] =>
    match decodeMapPairs pairs with
    | .ok ps => .ok ⟨ps⟩
    | .error e => .error e
  | _ => .error "cannot unmarshal value into OvsMap"

/-- Modelled from the spec: `ColumnSchema.UnmarshalSet` of package `libovsdb`
is not among the provided sources.  Spec section 4.2: "Decode both sides into
an unordered multiset of scalars."  The wire format is either the two-element
array tagged "set" holding the element array, or a single scalar denoting the
singleton set; composite values of any other shape are a `DecodeError`. -/
def ColumnSchema.UnmarshalSet (_cs : ColumnSchema) (data : GoVal) :
    Except String OvsSet :=
  match data with
  | .arr [.str "set", .arr elems] => .ok ⟨elems⟩
  | .arr _ => .error "cannot unmarshal value into OvsSet"
  | .obj _ => .error "cannot unmarshal value into OvsSet"
  | .omap _ => .error "cannot unmarshal value into OvsSet"
  | .oset _ => .error "cannot unmarshal value into OvsSet"
  | v => .ok ⟨[v]⟩

/-- `compareMaps` (monitor.go): the map-column delta.  The first loop collects
every key of the new map whose value is new or changed (with its new value);
the second loop adds every key of the previous map that is absent from the new
map (with its previous value). -/
def updater.compareMaps (_u : updater) (data prevData : GoVal)
    (columnSchema : ColumnSchema) : Except String OvsMap :=
  match columnSchema.UnmarshalMap data with
  | .error e => .error ("cannot convert column to map: " ++ e)
  | .ok newMap =>
    match columnSchema.UnmarshalMap prevData with
    | .error e => .error ("cannot convert prevData column to map: " ++ e)
    | .ok prevMap =>
      let delta1 := newMap.GoMap.foldl (fun acc kv =>
        match assocGet prevMap.GoMap kv.1 with
        | some pv => if kv.2 ≠ pv then assocSet acc kv.1 kv.2 else acc
        | none => assocSet acc kv.1 kv.2) []
      let delta2 := prevMap.GoMap.foldl (fun acc pkv =>
        match assocGet acc pkv.1 with
        | some _ => acc
        | none =>
          match assocGet newMap.GoMap pkv.1 with
          | some _ => acc
          | none => assocSet acc pkv.1 pkv.2) delta1
      .ok ⟨delta2⟩

/-- `setsDifference` (monitor.go): two passes — elements of `set1` absent from
`set2`, then (after the swap) elements of `set2` absent from `set1`. -/
def setsDifference (set1 set2 : OvsSet) : OvsSet :=
  ⟨set1.GoSet.filter (fun s1 => !(set2.GoSet.any (fun s2 => decide (s1 = s2)))) ++
    set2.GoSet.filter (fun s2 => !(set1.GoSet.any (fun s1 => decide (s2 = s1))))⟩

/-- `compareSets` (monitor.go): decode both sides and take the symmetric
difference. -/
def updater.compareSets (_u : updater) (data prevData : GoVal)
    (columnSchema : ColumnSchema) : Except String OvsSet :=
  match columnSchema.UnmarshalSet data with
  | .error e => .error ("cannot convert column to set: " ++ e)
  | .ok newSet =>
    match columnSchema.UnmarshalSet prevData with
    | .error e => .error ("cannot convert prevData column to set: " ++ e)
    | .ok prevSet => .ok (setsDifference newSet prevSet)

/-- The loop body of `compareModifiedRows` (monitor.go), iterating the entries
of `modifiedRow` and accumulating `deltaRow`.  In Go `deltaRow` is mutated in
place and an error is returned as soon as a column lookup or conversion fails,
leaving the columns not yet iterated out of the delta; the model returns the
partial delta together with the error outcome. -/
def compareModifiedRowsGo (u : updater) (modifiedRow prevRow : RowMap) :
    List (String × GoVal) → RowMap → RowMap × Except String Unit
  | [], deltaRow => (deltaRow, .ok ())
  | (column, cValue) :: rest, deltaRow =>
    if cValue = goIndex prevRow column then
      compareModifiedRowsGo u modifiedRow prevRow rest deltaRow
    else
      match u.tableSchema.LookupColumn column with
      | .error e => (deltaRow, .error e)
      | .ok columnSchema =>
        if columnSchema.colType = ColumnType.typeMap then
          match u.compareMaps (goIndex modifiedRow column) (goIndex prevRow column)
              columnSchema with
          | .error e => (deltaRow, .error e)
          | .ok deltaMap =>
            compareModifiedRowsGo u modifiedRow prevRow rest
              (assocSet deltaRow column (.omap deltaMap.GoMap))
        else if columnSchema.colType = ColumnType.typeSet then
          match u.compareSets (goIndex modifiedRow column) (goIndex prevRow column)
              columnSchema with
          | .error e => (deltaRow, .error e)
          | .ok deltaSet =>
            compareModifiedRowsGo u modifiedRow prevRow rest
              (assocSet deltaRow column (.oset deltaSet.GoSet))
        else
          compareModifiedRowsGo u modifiedRow prevRow rest
            (assocSet deltaRow column
              (if u.isV1 then goIndex prevRow column else goIndex modifiedRow column))

/-- `compareModifiedRows` (monitor.go): run the loop over the entries of
`modifiedRow` starting from the empty delta. -/
def updater.compareModifiedRows (u : updater) (modifiedRow prevRow : RowMap) :
    RowMap × Except String Unit :=
  compareModifiedRowsGo u modifiedRow prevRow modifiedRow []

/-! ## Backing-store events and the updater dispatch -/

/-- Modelled from the spec: the backing-store event variants, "type in Create,
Modify, Delete" (spec section 6); `clientv3.Event.IsCreate` / `IsModify`
collapse into this tag. -/
inductive EventType : Type where
  | create : EventType
  | modify : EventType
  | delete : EventType
  deriving DecidableEq, Repr

/-- Modelled from the spec: a backing-store event.  `key` is the row key as
path segments, `value` is `Kv.Value` and `prevValue` is `PrevKv.Value`, both at
the parse-tree level; `hasKv` is false for the degenerate events with a nil
`Kv` that `prepareTableUpdate` skips. -/
structure Event : Type where
  etype : EventType
  hasKv : Bool := true
  key : List String := []
  value : GoVal := .null
  prevValue : GoVal := .null
  deriving DecidableEq, Repr

/-- `prepareDeleteRowUpdate` (monitor.go): gated by `Select.Delete`; v2/v3
emits `Delete: true` once the pre-image decodes (the projected row is
discarded), v1 emits the projected pre-image only when it is non-empty. -/
def updater.prepareDeleteRowUpdate (u : updater) (event : Event) :
    Except String (Option RowUpdate × String) :=
  if MSIsTrue u.sel.Delete then
    let value := event.prevValue
    if u.isV1 then
      match u.prepareRow value with
      | .error e => .error e
      | .ok (data, uuid) =>
        if data.length > 0 then .ok (some { Old := some data }, uuid)
        else .ok (none, uuid)
    else
      match u.prepareRow value with
      | .error e => .error e
      | .ok (_, uuid) => .ok (some { Delete := true }, uuid)
  else .ok (none, "")

/-- `prepareCreateRowUpdate` (monitor.go): gated by `Select.Insert`; emits the
projected post-image (`New` for v1, `Insert` for v2/v3) only when it is
non-empty. -/
def updater.prepareCreateRowUpdate (u : updater) (event : Event) :
    Except String (Option RowUpdate × String) :=
  if MSIsTrue u.sel.Insert then
    match u.prepareRow event.value with
    | .error e => .error e
    | .ok (data, uuid) =>
      if data.length > 0 then
        if u.isV1 then .ok (some { New := some data }, uuid)
        else .ok (some { Insert := some data }, uuid)
      else .ok (none, "")
  else .ok (none, "")

/-- `prepareModifyRowUpdate` (monitor.go): gated by `Select.Modify`; decodes
both images, fails when the UUID changed, diffs the projected rows, and emits
`New` plus `Old`-delta for v1 or `Modify`-delta for v2/v3 when the delta is
non-empty.  The error returned by `compareModifiedRows` is discarded by the Go
code, so only the partial delta is consulted. -/
def updater.prepareModifyRowUpdate (u : updater) (event : Event) :
    Except String (Option RowUpdate × String) :=
  if MSIsTrue u.sel.Modify then
    match u.prepareRow event.value with
    | .error e => .error e
    | .ok (modifiedRow, uuid) =>
      match u.prepareRow event.prevValue with
      | .error e => .error e
      | .ok (prevRow, prevUUID) =>
        if uuid ≠ prevUUID then
          .error ("UUID was changed prev uuid=" ++ prevUUID ++ ", new uuid=" ++ uuid)
        else
          let deltaRow := (u.compareModifiedRows modifiedRow prevRow).1
          if deltaRow.length > 0 then
            if u.isV1 then .ok (some { New := some modifiedRow, Old := some deltaRow }, uuid)
            else .ok (some { Modify := some deltaRow }, uuid)
          else .ok (none, "")
  else .ok (none, "")

/-- `prepareRowUpdate` (monitor.go): dispatch on the event variant. -/
def updater.prepareRowUpdate (u : updater) (event : Event) :
    Except String (Option RowUpdate × String) :=
  match event.etype with
  | .create => u.prepareCreateRowUpdate event
  | .delete => u.prepareDeleteRowUpdate event
  | .modify => u.prepareModifyRowUpdate event

/-- `prepareCreateRowInitial` (monitor.go): the snapshot helper, gated by
`Select.Initial`; emits the projected row (`New` for v1, `Initial` for v2/v3)
only when it is non-empty. -/
def updater.prepareCreateRowInitial (u : updater) (value : GoVal) :
    Except String (Option RowUpdate × String) :=
  if MSIsTrue u.sel.Initial then
    match u.prepareRow value with
    | .error e => .error e
    | .ok (data, uuid) =>
      if data.length > 0 then
        if u.isV1 then .ok (some { New := some data }, uuid)
        else .ok (some { Initial := some data }, uuid)
      else .ok (none, uuid)
  else .ok (none, "")

/-! ## Monitor registry -/

/-- Modelled from the spec: a table key, the reduction
prefix-database-table of a row key (spec section 3); `common.NewTableKey` /
`common.Key.ToTableKey` produce it.  (`pfx` abbreviates the key prefix.) -/
structure TableKey : Type where
  pfx : String
  dbName : String
  tableName : String
  deriving DecidableEq, Repr

/-- Modelled from the spec: `common.Key`, a parsed row key
prefix-database-table-uuid (spec section 3). -/
structure CommonKey : Type where
  pfx : String
  dbName : String
  tableName : String
  uuid : String
  deriving DecidableEq, Repr

/-- `common.Key.ToTableKey`: drop the UUID segment. -/
def CommonKey.toTableKey (k : CommonKey) : TableKey :=
  ⟨k.pfx, k.dbName, k.tableName⟩

/-- Modelled from the spec: `common.ParseKey` over path segments; a row key
has exactly the four segments prefix, database, table, uuid. -/
def ParseKey : List String → Except String CommonKey
  | [p, db, t, u] => .ok ⟨p, db, t, u⟩
  | _ => .error "invalid key"

/-- `Key2Updaters` (monitor.go): the registry map from table keys to updater
slots. -/
abbrev Key2Updaters := List (TableKey × List updater)

/-- `Key2Updaters.removeUpdaters` (monitor.go): drop from the slot of `key`
every updater whose `jasonValueStr` matches; delete the slot if it becomes
empty; ignore an absent key. -/
def Key2Updaters.removeUpdaters (k : Key2Updaters) (key : TableKey)
    (jsonValue : String) : Key2Updaters :=
  match assocGet k key with
  | none => k
  | some updaters =>
    let newUpdaters := updaters.filter (fun u => decide ¬(u.jasonValueStr = jsonValue))
    if newUpdaters.length ≠ 0 then assocSet k key newUpdaters
    else assocErase k key

/-- One key's worth of `dbMonitor.addUpdaters` (monitor.go): ensure the slot
exists, then append each incoming updater.  The source's inner loop over the
existing slot only executes `continue` when it meets a deep-equal updater,
which advances that inner loop and nothing else, so the append is reached for
every incoming updater — deep-equal duplicates are appended. -/
def addSlotUpdaters (reg : Key2Updaters) (key : TableKey)
    (updaters : List updater) : Key2Updaters :=
  let reg1 := match assocGet reg key with
    | some _ => reg
    | none => assocSet reg key []
  updaters.foldl (fun r uNew => assocSet r key ((assocGet r key).getD [] ++ [uNew])) reg1

/-- `dbMonitor.addUpdaters` (monitor.go): fold `addSlotUpdaters` over the
incoming map. -/
def addUpdaters (reg : Key2Updaters) (keyToUpdaters : Key2Updaters) : Key2Updaters :=
  keyToUpdaters.foldl (fun r kv => addSlotUpdaters r kv.1 kv.2) reg

/-- `dbMonitor.removeUpdaters` (monitor.go): remove a json-value's updaters
from each listed table key. -/
def removeUpdatersKeys (reg : Key2Updaters) (keys : List TableKey)
    (jsonValue : String) : Key2Updaters :=
  keys.foldl (fun r key => r.removeUpdaters key jsonValue) reg

/-- A localized registry transformation: apply `F` to the slot of `k` (`none`
meaning the key is absent).  `Key2Updaters.removeUpdaters` and
`addSlotUpdaters` are both instances of this shape, which is what the
commutation arguments below exploit. -/
def updateKey {κ α : Type} [DecidableEq κ] (k : κ) (F : Option α → Option α)
    (l : List (κ × α)) : List (κ × α) :=
  match assocGet l k with
  | some cur =>
    match F (some cur) with
    | some v => assocSet l k v
    | none => assocErase l k
  | none =>
    match F none with
    | some v => l ++ [(k, v)]
    | none => l

/-- The slot transformation performed by `Key2Updaters.removeUpdaters`. -/
def removeF (jsonValue : String) : Option (List updater) → Option (List updater)
  | none => none
  | some updaters =>
    let newUpdaters := updaters.filter (fun u => decide ¬(u.jasonValueStr = jsonValue))
    if newUpdaters.length ≠ 0 then some newUpdaters else none

/-- The slot transformation performed by `addSlotUpdaters`. -/
def addF (us : List updater) : Option (List updater) → Option (List updater) :=
  fun o => some ((o.getD []) ++ us)

/-! ## Watch loop: revision checker, table-update assembly, notify -/

/-- `ovsjson.TableUpdate`: uuid to row update. -/
abbrev TableUpdate := List (String × RowUpdate)

/-- `ovsjson.TableUpdates`: table name to table update. -/
abbrev TableUpdates := List (String × TableUpdate)

/-- `revisionChecker.isNewRevision` (monitor.go) as a pure state transformer on
the stored revision: strictly newer revisions advance the counter and return
true, all others leave it unchanged and return false. -/
def isNewRevision (revision newRevision : Int) : Bool × Int :=
  if newRevision > revision then (true, newRevision) else (false, revision)

/-- The per-event body of `dbMonitor.prepareTableUpdate` (monitor.go): skip
events with a nil `Kv` or an unparsable key, look the table key up in the
registry, run every registered updater, and record each emitted row update
under json-value, table name, uuid (a collision on the same uuid is
last-write-wins). -/
def prepareTableUpdateEvent (reg : Key2Updaters)
    (result : List (String × TableUpdates)) (ev : Event) :
    List (String × TableUpdates) :=
  if !ev.hasKv then result
  else
    match ParseKey ev.key with
    | .error _ => result
    | .ok key =>
      match assocGet reg key.toTableKey with
      | none => result
      | some updaters =>
        updaters.foldl (fun res u =>
          match u.prepareRowUpdate ev with
          | .error _ => res
          | .ok (none, _) => res
          | .ok (some rowUpdate, uuid) =>
            let tableUpdates := (assocGet res u.jasonValueStr).getD []
            let tableUpdate := (assocGet tableUpdates key.tableName).getD []
            assocSet res u.jasonValueStr
              (assocSet tableUpdates key.tableName
                (assocSet tableUpdate uuid rowUpdate))) result

/-- `dbMonitor.prepareTableUpdate` (monitor.go): fold the event batch into the
json-value-keyed table updates (the Go function's error result is always
nil). -/
def prepareTableUpdate (reg : Key2Updaters) (events : List Event) :
    List (String × TableUpdates) :=
  events.foldl (prepareTableUpdateEvent reg) []

/-- The state of a `dbMonitor` that `notify` touches: the revision checker and
the registry. -/
structure DbMonitorState : Type where
  revision : Int
  key2Updaters : Key2Updaters
  deriving Repr

/-- `dbMonitor.notify` (monitor.go) as a state transformer returning the
notifications handed to `handler.notify`: an empty batch returns immediately;
otherwise the batch is processed only when `isNewRevision` advances the
revision checker, and every entry of `prepareTableUpdate`'s result is handed
off. -/
def DbMonitorState.notify (m : DbMonitorState) (events : List Event)
    (revision : Int) : DbMonitorState × List (String × TableUpdates) :=
  if events.length = 0 then (m, [])
  else
    let (isNew, rev1) := isNewRevision m.revision revision
    if isNew then
      let m1 : DbMonitorState := { m with revision := rev1 }
      (m1, prepareTableUpdate m1.key2Updaters events)
    else (m, [])

/-! ## Concrete instances used in the closed theorems -/

def tkC5 : TableKey := ⟨"pfx", "db", "table1"⟩

def uC5 : updater :=
  { mcr := { Columns := ["c1"], Select := some {} },
    tableSchema := ⟨[]⟩, isV1 := true, jasonValueStr := "jsonValue1" }

def tkC6 : TableKey := ⟨"pfx", "db", "table6"⟩

def uC6prior : updater :=
  { mcr := { Columns := ["c1"], Select := some {} },
    tableSchema := ⟨[]⟩, isV1 := true, jasonValueStr := "jv6" }

def uC6new : updater :=
  { mcr := { Columns := ["c2"], Select := some {} },
    tableSchema := ⟨[]⟩, isV1 := false, jasonValueStr := "jv6" }

def tkC6w : TableKey := ⟨"pfx", "db", "table7"⟩

def uC6w : updater :=
  { mcr := { Columns := ["c1"], Select := some {} },
    tableSchema := ⟨[]⟩, isV1 := true, jasonValueStr := "jvOld" }

def uC6wNew : updater :=
  { mcr := { Columns := ["c2"], Select := some {} },
    tableSchema := ⟨[]⟩, isV1 := false, jasonValueStr := "jvNew" }

def tkC10 : TableKey := ⟨"pfx", "db", "table10"⟩

def tkC10other : TableKey := ⟨"pfx", "db", "table11"⟩

def uC10 : updater :=
  { mcr := { Columns := [], Select := some {} },
    tableSchema := ⟨[]⟩, isV1 := false, jasonValueStr := "jv10" }

def mC7 : DbMonitorState := { revision := 5, key2Updaters := [] }

def evC7 : Event := { etype := EventType.create }

def uC9 : updater :=
  { mcr := { Columns := [], Select := some {} },
    tableSchema := ⟨[("c1", ⟨ColumnType.typeScalar⟩)]⟩,
    isV1 := false, jasonValueStr := "jv9" }

def evC9 : Event :=
  { etype := EventType.modify,
    value := GoVal.obj [("c1", .str "v"), ("_uuid", .arr [.str "uuid", .str "U2"])],
    prevValue := GoVal.obj [("c1", .str "v"), ("_uuid", .arr [.str "uuid", .str "U1"])] }

def uC2v1 : updater :=
  { mcr := { Columns := ["c3"], Select := some {} },
    tableSchema := ⟨[("c1", ⟨ColumnType.typeScalar⟩)]⟩,
    isV1 := true, jasonValueStr := "jv2" }

def uC2v2 : updater :=
  { mcr := { Columns := ["c3"], Select := some {} },
    tableSchema := ⟨[("c1", ⟨ColumnType.typeScalar⟩)]⟩,
    isV1 := false, jasonValueStr := "jv2" }

def evC2create : Event :=
  { etype := EventType.create,
    value := GoVal.obj [("c1", .str "v"), ("_uuid", .arr [.str "uuid", .str "U1"])] }

def evC2delete : Event :=
  { etype := EventType.delete,
    prevValue := GoVal.obj [("c1", .str "v"), ("_uuid", .arr [.str "uuid", .str "U1"])] }

/-- The C8 payload property: no column map of the row update binds `_uuid`. -/
def RowUpdateNoUuid (ru : RowUpdate) : Prop :=
  (∀ d, ru.New = some d → assocGet d COL_UUID = none) ∧
  (∀ d, ru.Old = some d → assocGet d COL_UUID = none) ∧
  (∀ d, ru.Initial = some d → assocGet d COL_UUID = none) ∧
  (∀ d, ru.Insert = some d → assocGet d COL_UUID = none) ∧
  (∀ d, ru.Modify = some d → assocGet d COL_UUID = none)

def uC8 : updater :=
  { mcr := { Columns := ["_uuid", "c1"], Select := some {} },
    tableSchema := ⟨[("c1", ⟨ColumnType.typeScalar⟩)]⟩,
    isV1 := true, jasonValueStr := "jv8" }

def evC8 : Event :=
  { etype := EventType.create,
    value := GoVal.obj [("c1", .str "v"), ("_uuid", .arr [.str "uuid", .str "U8"])] }

def uC4 : updater :=
  { mcr := { Columns := [], Select := some {} },
    tableSchema := ⟨[("c2", ⟨ColumnType.typeScalar⟩)]⟩,
    isV1 := false, jasonValueStr := "jv4" }

def evC4 : Event :=
  { etype := EventType.modify,
    value := GoVal.obj [("c1", .str "a1"), ("c2", .str "b1"),
      ("_uuid", .arr [.str "uuid", .str "U4"])],
    prevValue := GoVal.obj [("c1", .str "a0"), ("c2", .str "b0"),
      ("_uuid", .arr [.str "uuid", .str "U4"])] }

def uC1 : updater :=
  { mcr := { Columns := [], Select := some {} },
    tableSchema := ⟨[("c1", ⟨ColumnType.typeScalar⟩), ("c2", ⟨ColumnType.typeScalar⟩)]⟩,
    isV1 := false, jasonValueStr := "jv1" }

def evC1 : Event :=
  { etype := EventType.modify,
    value := GoVal.obj [("c1", .str "v1"), ("c2", .str "v3"),
      ("_uuid", .arr [.str "uuid", .str "U1"])],
    prevValue := GoVal.obj [("c1", .str "v1"), ("c2", .str "v2"),
      ("_uuid", .arr [.str "uuid", .str "U1"])] }

def uC3 : updater :=
  { mcr := { Columns := [], Select := some {} },
    tableSchema := ⟨[("m", ⟨ColumnType.typeMap⟩)]⟩,
    isV1 := false, jasonValueStr := "jv3" }

def csC3 : ColumnSchema := ⟨ColumnType.typeMap⟩

def mWirePre : GoVal :=
  .arr [.str "map", .arr [.arr [.str "a", .num 1], .arr [.str "b", .num 2]]]

def mWirePost : GoVal :=
  .arr [.str "map",
    .arr [.arr [.str "a", .num 1], .arr [.str "b", .num 3], .arr [.str "c", .num 4]]]

/-! ### Lemmas about the association-list primitives -/

section AssocLemmas

variable {κ α : Type} [DecidableEq κ]

theorem assocGet_mem {l : List (κ × α)} {k : κ} {v : α}
    (h : assocGet l k = some v) : (k, v) ∈ l := by
  induction l with
  | nil => simp [assocGet] at h
  | cons p rest ih =>
    obtain ⟨k0, v0⟩ := p
    simp only [assocGet] at h
    by_cases hk : k0 = k
    · simp [hk] at h
      subst hk h
      exact List.mem_cons_self _ _
    · simp [hk] at h
      exact List.mem_cons_of_mem _ (ih h)

theorem assocGet_none_of_not_mem {l : List (κ × α)} {k : κ}
    (h : k ∉ l.map Prod.fst) : assocGet l k = none := by
  induction l with
  | nil => rfl
  | cons p rest ih =>
    obtain ⟨k0, v0⟩ := p
    simp only [List.map_cons, List.mem_cons] at h
    push_neg at h
    simp only [assocGet]
    rw [if_neg (fun hh => h.1 hh.symm)]
    exact ih h.2

theorem mem_keys_of_assocGet_some {l : List (κ × α)} {k : κ} {v : α}
    (h : assocGet l k = some v) : k ∈ l.map Prod.fst :=
  List.mem_map.mpr ⟨(k, v), assocGet_mem h, rfl⟩

theorem assocGet_set_self (l : List (κ × α)) (k : κ) (v : α) :
    assocGet (assocSet l k v) k = some v := by
  induction l with
  | nil => simp [assocGet, assocSet]
  | cons p rest ih =>
    obtain ⟨k0, v0⟩ := p
    simp only [assocSet]
    by_cases hk : k0 = k
    · simp [hk, assocGet]
    · simp [hk, assocGet, ih]

theorem assocGet_set_other {k k' : κ} (h : k' ≠ k) (l : List (κ × α)) (v : α) :
    assocGet (assocSet l k v) k' = assocGet l k' := by
  induction l with
  | nil =>
    simp only [assocSet, assocGet]
    rw [if_neg (fun hh => h hh.symm)]
  | cons p rest ih =>
    obtain ⟨k0, v0⟩ := p
    simp only [assocSet]
    by_cases hk : k0 = k
    · subst hk
      simp only [if_pos rfl, assocGet]
      rw [if_neg (fun hh => h hh.symm), if_neg (fun hh => h hh.symm)]
    · simp only [if_neg hk, assocGet]
      by_cases hk' : k0 = k'
      · simp [hk']
      · simp [hk', ih]

theorem assocSet_set_same (l : List (κ × α)) (k : κ) (v w : α) :
    assocSet (assocSet l k v) k w = assocSet l k w := by
  induction l with
  | nil => simp [assocSet]
  | cons p rest ih =>
    obtain ⟨k0, v0⟩ := p
    simp only [assocSet]
    by_cases hk : k0 = k
    · simp [hk, assocSet]
    · simp [hk, assocSet, ih]

theorem assocSet_get_self {l : List (κ × α)} {k : κ} {v : α}
    (h : assocGet l k = some v) : assocSet l k v = l := by
  induction l with
  | nil => simp [assocGet] at h
  | cons p rest ih =>
    obtain ⟨k0, v0⟩ := p
    simp only [assocGet] at h
    simp only [assocSet]
    by_cases hk : k0 = k
    · simp [hk] at h
      simp [hk, h]
    · simp [hk] at h
      simp [hk, ih h]

theorem assocErase_cons (k0 : κ) (v0 : α) (rest : List (κ × α)) (k : κ) :
    assocErase ((k0, v0) :: rest) k =
      if k0 = k then assocErase rest k else (k0, v0) :: assocErase rest k := by
  simp only [assocErase, List.filter_cons]
  by_cases hk : k0 = k
  · simp [hk]
  · simp [hk]

theorem assocGet_erase_self (l : List (κ × α)) (k : κ) :
    assocGet (assocErase l k) k = none := by
  induction l with
  | nil => rfl
  | cons p rest ih =>
    obtain ⟨k0, v0⟩ := p
    rw [assocErase_cons]
    by_cases hk : k0 = k
    · simp [hk, ih]
    · simp only [if_neg hk, assocGet]
      simp [hk, ih]

theorem assocGet_erase_other {k k' : κ} (h : k' ≠ k) (l : List (κ × α)) :
    assocGet (assocErase l k) k' = assocGet l k' := by
  induction l with
  | nil => rfl
  | cons p rest ih =>
    obtain ⟨k0, v0⟩ := p
    rw [assocErase_cons]
    have hkk : ¬ k = k' := fun hh => h hh.symm
    by_cases hk : k0 = k
    · simp [hk, hkk, assocGet, ih]
    · by_cases hk' : k0 = k'
      · simp [hk, hk', h, assocGet]
      · simp [hk, hk', assocGet, ih]

theorem assocErase_of_get_none {l : List (κ × α)} {k : κ}
    (h : assocGet l k = none) : assocErase l k = l := by
  induction l with
  | nil => rfl
  | cons p rest ih =>
    obtain ⟨k0, v0⟩ := p
    simp only [assocGet] at h
    by_cases hk : k0 = k
    · simp [hk] at h
    · simp [hk] at h
      rw [assocErase_cons, if_neg hk, ih h]

theorem assocGet_append_left {a : List (κ × α)} {k : κ} {v : α}
    (h : assocGet a k = some v) (b : List (κ × α)) :
    assocGet (a ++ b) k = some v := by
  induction a with
  | nil => simp [assocGet] at h
  | cons p rest ih =>
    obtain ⟨k0, v0⟩ := p
    simp only [assocGet, List.cons_append] at *
    by_cases hk : k0 = k
    · simpa [hk] using h
    · simp [hk] at h ⊢
      exact ih h

theorem assocGet_append_right {a : List (κ × α)} {k : κ}
    (h : assocGet a k = none) (b : List (κ × α)) :
    assocGet (a ++ b) k = assocGet b k := by
  induction a with
  | nil => simp
  | cons p rest ih =>
    obtain ⟨k0, v0⟩ := p
    simp only [assocGet, List.cons_append] at *
    by_cases hk : k0 = k
    · simp [hk] at h
    · simp [hk] at h ⊢
      exact ih h

theorem assocSet_append_absent {l : List (κ × α)} {k : κ}
    (h : assocGet l k = none) (v : α) : assocSet l k v = l ++ [(k, v)] := by
  induction l with
  | nil => rfl
  | cons p rest ih =>
    obtain ⟨k0, v0⟩ := p
    simp only [assocGet] at h
    by_cases hk : k0 = k
    · simp [hk] at h
    · simp [hk] at h
      simp [assocSet, hk, ih h]

theorem assocSet_append_left {a : List (κ × α)} {k : κ} {v0 : α}
    (h : assocGet a k = some v0) (b : List (κ × α)) (v : α) :
    assocSet (a ++ b) k v = assocSet a k v ++ b := by
  induction a with
  | nil => simp [assocGet] at h
  | cons p rest ih =>
    obtain ⟨k1, v1⟩ := p
    simp only [assocGet] at h
    simp only [List.cons_append, assocSet]
    by_cases hk : k1 = k
    · simp [hk]
    · simp [hk] at h
      simp [hk, ih h]

theorem assocErase_append (a b : List (κ × α)) (k : κ) :
    assocErase (a ++ b) k = assocErase a k ++ assocErase b k := by
  simp [assocErase, List.filter_append]

theorem assocSet_comm_of_mem {k k' : κ} (h : k ≠ k') (l : List (κ × α))
    (v w : α) (hmem : k' ∈ l.map Prod.fst) :
    assocSet (assocSet l k v) k' w = assocSet (assocSet l k' w) k v := by
  induction l with
  | nil => simp at hmem
  | cons p rest ih =>
    obtain ⟨k0, v0⟩ := p
    by_cases hk : k0 = k
    · simp [assocSet, hk, h, Ne.symm h]
    · by_cases hk' : k0 = k'
      · simp [assocSet, hk', h, Ne.symm h, hk]
      · simp only [List.map_cons, List.mem_cons] at hmem
        rcases hmem with hmem | hmem
        · exact absurd hmem.symm hk'
        · simp [assocSet, hk, hk', ih hmem]

theorem assocErase_set_other {k k' : κ} (h : k ≠ k') (l : List (κ × α)) (v : α) :
    assocErase (assocSet l k' v) k = assocSet (assocErase l k) k' v := by
  induction l with
  | nil =>
    simp only [assocSet]
    rw [assocErase_cons, if_neg (fun hh => h hh.symm)]
    rfl
  | cons p rest ih =>
    obtain ⟨k0, v0⟩ := p
    by_cases hk' : k0 = k'
    · simp only [assocSet, if_pos hk']
      have hk0 : ¬ k0 = k := by rw [hk']; exact fun hh => h hh.symm
      rw [assocErase_cons, if_neg (fun hh => h hh.symm), assocErase_cons, if_neg hk0]
      simp [assocSet, hk']
    · simp only [assocSet, if_neg hk']
      by_cases hk : k0 = k
      · rw [assocErase_cons, if_pos hk, assocErase_cons, if_pos hk]
        exact ih
      · rw [assocErase_cons, if_neg hk, assocErase_cons, if_neg hk]
        simp [assocSet, hk', ih]

theorem assocErase_comm (l : List (κ × α)) (k k' : κ) :
    assocErase (assocErase l k) k' = assocErase (assocErase l k') k := by
  simp only [assocErase, List.filter_filter]
  congr 1
  funext p
  rw [Bool.and_comm]

theorem mem_assocSet {l : List (κ × α)} {k : κ} {v : α} {p : κ × α}
    (h : p ∈ assocSet l k v) : p ∈ l ∨ p = (k, v) := by
  induction l with
  | nil => simp [assocSet] at h; right; exact h
  | cons q rest ih =>
    obtain ⟨k0, v0⟩ := q
    simp only [assocSet] at h
    by_cases hk : k0 = k
    · simp only [if_pos hk, List.mem_cons] at h
      rcases h with h | h
      · right; exact h
      · left; exact List.mem_cons_of_mem _ h
    · simp only [if_neg hk, List.mem_cons] at h
      rcases h with h | h
      · left; simp [h]
      · rcases ih h with h1 | h1
        · left; exact List.mem_cons_of_mem _ h1
        · right; exact h1

theorem mem_assocErase {l : List (κ × α)} {k : κ} {p : κ × α}
    (h : p ∈ assocErase l k) : p ∈ l :=
  List.mem_of_mem_filter h

end AssocLemmas

/-! ### Registry lemmas -/

theorem updateKey_ss {κ α : Type} [DecidableEq κ] {l : List (κ × α)} {k : κ}
    {F : Option α → Option α} {cur : α} {v : α}
    (h : assocGet l k = some cur) (hF : F (some cur) = some v) :
    updateKey k F l = assocSet l k v := by
  unfold updateKey
  simp only [h, hF]

theorem updateKey_sn {κ α : Type} [DecidableEq κ] {l : List (κ × α)} {k : κ}
    {F : Option α → Option α} {cur : α}
    (h : assocGet l k = some cur) (hF : F (some cur) = none) :
    updateKey k F l = assocErase l k := by
  unfold updateKey
  simp only [h, hF]

theorem updateKey_ns {κ α : Type} [DecidableEq κ] {l : List (κ × α)} {k : κ}
    {F : Option α → Option α} {v : α}
    (h : assocGet l k = none) (hF : F none = some v) :
    updateKey k F l = l ++ [(k, v)] := by
  unfold updateKey
  simp only [h, hF]

theorem updateKey_nn {κ α : Type} [DecidableEq κ] {l : List (κ × α)} {k : κ}
    {F : Option α → Option α}
    (h : assocGet l k = none) (hF : F none = none) :
    updateKey k F l = l := by
  unfold updateKey
  simp only [h, hF]

theorem removeUpdaters_eq_updateKey (reg : Key2Updaters) (key : TableKey)
    (jv : String) : reg.removeUpdaters key jv = updateKey key (removeF jv) reg := by
  cases h : assocGet reg key with
  | none =>
    rw [updateKey_nn h rfl]
    unfold Key2Updaters.removeUpdaters
    rw [h]
  | some us =>
    by_cases hlen :
        (us.filter (fun u => decide ¬(u.jasonValueStr = jv))).length ≠ 0
    · rw [updateKey_ss h (by simp only [removeF]; rw [if_pos hlen])]
      unfold Key2Updaters.removeUpdaters
      rw [h]
      simp only [if_pos hlen]
    · rw [updateKey_sn h (by simp only [removeF]; rw [if_neg hlen])]
      unfold Key2Updaters.removeUpdaters
      rw [h]
      simp only [if_neg hlen]

theorem foldl_append_slot (key : TableKey) (us : List updater) :
    ∀ (r : Key2Updaters) (cur : List updater), assocGet r key = some cur →
      us.foldl (fun r uNew =>
        assocSet r key ((assocGet r key).getD [] ++ [uNew])) r =
        assocSet r key (cur ++ us) := by
  induction us with
  | nil =>
    intro r cur h
    simp [assocSet_get_self h]
  | cons u us ih =>
    intro r cur h
    simp only [List.foldl_cons]
    rw [h]
    have h2 : assocGet (assocSet r key ((some cur).getD [] ++ [u])) key =
        some (cur ++ [u]) := by
      simpa using assocGet_set_self r key (cur ++ [u])
    rw [ih _ _ h2, assocSet_set_same]
    simp

theorem addSlotUpdaters_eq_updateKey (reg : Key2Updaters) (key : TableKey)
    (us : List updater) :
    addSlotUpdaters reg key us = updateKey key (addF us) reg := by
  cases h : assocGet reg key with
  | some cur =>
    rw [updateKey_ss h (show addF us (some cur) = some (cur ++ us) from rfl)]
    unfold addSlotUpdaters
    rw [h]
    exact foldl_append_slot key us reg cur h
  | none =>
    rw [updateKey_ns h (show addF us none = some us from rfl)]
    unfold addSlotUpdaters
    rw [h]
    have h1 : assocGet (assocSet reg key []) key = some [] := assocGet_set_self ..
    rw [foldl_append_slot key us _ [] h1, assocSet_set_same,
      assocSet_append_absent h]
    simp

theorem updateKey_get_other {κ α : Type} [DecidableEq κ] {k k' : κ} (h : k' ≠ k)
    (F : Option α → Option α) (l : List (κ × α)) :
    assocGet (updateKey k F l) k' = assocGet l k' := by
  cases h1 : assocGet l k with
  | none =>
    cases h2 : F none with
    | none => rw [updateKey_nn h1 h2]
    | some v =>
      rw [updateKey_ns h1 h2]
      cases h3 : assocGet l k' with
      | none =>
        rw [assocGet_append_right h3]
        have hne : ¬ k = k' := fun hh => h hh.symm
        simp [assocGet, hne]
      | some w => rw [assocGet_append_left h3]
  | some cur =>
    cases h2 : F (some cur) with
    | none =>
      rw [updateKey_sn h1 h2]
      exact assocGet_erase_other h l
    | some v =>
      rw [updateKey_ss h1 h2]
      exact assocGet_set_other h l v

theorem updateKey_comm {κ α : Type} [DecidableEq κ] {k k' : κ} (hkk : k ≠ k')
    (F G : Option α → Option α) (hF : F none = none) (l : List (κ × α)) :
    updateKey k F (updateKey k' G l) = updateKey k' G (updateKey k F l) := by
  cases hK : assocGet l k with
  | none =>
    have hG : assocGet (updateKey k' G l) k = none := by
      rw [updateKey_get_other hkk G l, hK]
    rw [updateKey_nn hG hF, updateKey_nn hK hF]
  | some cur =>
    have hGk : assocGet (updateKey k' G l) k = some cur := by
      rw [updateKey_get_other hkk G l, hK]
    cases hK' : assocGet l k' with
    | some cur' =>
      cases hGc : G (some cur') with
      | some w =>
        rw [updateKey_ss hK' hGc]
        have hget : assocGet (assocSet l k' w) k = some cur := by
          rw [assocGet_set_other hkk l w, hK]
        cases hFc : F (some cur) with
        | some v =>
          rw [updateKey_ss hget hFc, updateKey_ss hK hFc]
          have hget' : assocGet (assocSet l k v) k' = some cur' := by
            rw [assocGet_set_other (Ne.symm hkk) l v, hK']
          rw [updateKey_ss hget' hGc]
          exact (assocSet_comm_of_mem hkk l v w (mem_keys_of_assocGet_some hK')).symm
        | none =>
          rw [updateKey_sn hget hFc, updateKey_sn hK hFc]
          have hget' : assocGet (assocErase l k) k' = some cur' := by
            rw [assocGet_erase_other (Ne.symm hkk) l, hK']
          rw [updateKey_ss hget' hGc]
          exact assocErase_set_other hkk l w
      | none =>
        rw [updateKey_sn hK' hGc]
        have hget : assocGet (assocErase l k') k = some cur := by
          rw [assocGet_erase_other hkk l, hK]
        cases hFc : F (some cur) with
        | some v =>
          rw [updateKey_ss hget hFc, updateKey_ss hK hFc]
          have hget' : assocGet (assocSet l k v) k' = some cur' := by
            rw [assocGet_set_other (Ne.symm hkk) l v, hK']
          rw [updateKey_sn hget' hGc]
          exact (assocErase_set_other (Ne.symm hkk) l v).symm
        | none =>
          rw [updateKey_sn hget hFc, updateKey_sn hK hFc]
          have hget' : assocGet (assocErase l k) k' = some cur' := by
            rw [assocGet_erase_other (Ne.symm hkk) l, hK']
          rw [updateKey_sn hget' hGc]
          exact assocErase_comm l k' k
    | none =>
      cases hGc : G none with
      | some w =>
        rw [updateKey_ns hK' hGc]
        have hget : assocGet (l ++ [(k', w)]) k = some cur :=
          assocGet_append_left hK _
        cases hFc : F (some cur) with
        | some v =>
          rw [updateKey_ss hget hFc, updateKey_ss hK hFc]
          have hget' : assocGet (assocSet l k v) k' = none := by
            rw [assocGet_set_other (Ne.symm hkk) l v, hK']
          rw [updateKey_ns hget' hGc]
          exact assocSet_append_left hK _ v
        | none =>
          rw [updateKey_sn hget hFc, updateKey_sn hK hFc]
          have hget' : assocGet (assocErase l k) k' = none := by
            rw [assocGet_erase_other (Ne.symm hkk) l, hK']
          rw [updateKey_ns hget' hGc]
          rw [assocErase_append]
          congr 1
          apply assocErase_of_get_none
          have hne : ¬ k' = k := fun hh => hkk hh.symm
          simp [assocGet, hne]
      | none =>
        rw [updateKey_nn hK' hGc]
        have hget' : assocGet (updateKey k F l) k' = none := by
          rw [updateKey_get_other (Ne.symm hkk) F l, hK']
        rw [updateKey_nn hget' hGc]

theorem removeUpdaters_get_other {k k' : TableKey} (h : k' ≠ k)
    (reg : Key2Updaters) (jv : String) :
    assocGet (reg.removeUpdaters k jv) k' = assocGet reg k' := by
  rw [removeUpdaters_eq_updateKey]
  exact updateKey_get_other h _ reg

theorem removeF_none (jv : String) : removeF jv none = none := rfl

theorem removeUpdaters_idem (reg : Key2Updaters) (key : TableKey) (jv : String) :
    (reg.removeUpdaters key jv).removeUpdaters key jv = reg.removeUpdaters key jv := by
  unfold Key2Updaters.removeUpdaters
  cases h : assocGet reg key with
  | none => rw [h]
  | some us =>
    simp only
    by_cases hlen :
        (us.filter (fun u => decide ¬(u.jasonValueStr = jv))).length ≠ 0
    · simp only [if_pos hlen]
      rw [assocGet_set_self]
      simp only [List.filter_filter, Bool.and_self]
      simp only [if_pos hlen]
      rw [assocSet_set_same]
    · simp only [if_neg hlen]
      rw [assocGet_erase_self]

theorem removeUpdaters_comm (reg : Key2Updaters) (k k' : TableKey) (jv : String) :
    (reg.removeUpdaters k jv).removeUpdaters k' jv =
      (reg.removeUpdaters k' jv).removeUpdaters k jv := by
  by_cases hkk : k' = k
  · rw [hkk]
  · rw [removeUpdaters_eq_updateKey reg k jv,
      removeUpdaters_eq_updateKey reg k' jv,
      removeUpdaters_eq_updateKey _ k' jv,
      removeUpdaters_eq_updateKey _ k jv]
    exact (updateKey_comm (fun hh => hkk hh.symm) (removeF jv) (removeF jv)
      (removeF_none jv) reg).symm

theorem removeUpdatersKeys_cons (r : Key2Updaters) (k : TableKey)
    (ks : List TableKey) (jv : String) :
    removeUpdatersKeys r (k :: ks) jv =
      removeUpdatersKeys (r.removeUpdaters k jv) ks jv := rfl

theorem addUpdaters_cons (reg : Key2Updaters) (k : TableKey) (us : List updater)
    (U : Key2Updaters) :
    addUpdaters reg ((k, us) :: U) = addUpdaters (addSlotUpdaters reg k us) U := rfl

theorem addSlot_then_remove (reg : Key2Updaters) (key : TableKey)
    (us : List updater) (jvk : String)
    (hus : ∀ u ∈ us, u.jasonValueStr = jvk)
    (hslot : ∀ cur, assocGet reg key = some cur →
      cur ≠ [] ∧ ∀ u ∈ cur, u.jasonValueStr ≠ jvk) :
    (addSlotUpdaters reg key us).removeUpdaters key jvk = reg := by
  have hfilterUs : us.filter (fun u => decide ¬(u.jasonValueStr = jvk)) = [] := by
    rw [List.filter_eq_nil_iff]
    intro u hu
    simp [hus u hu]
  rw [addSlotUpdaters_eq_updateKey]
  cases h : assocGet reg key with
  | some cur =>
    obtain ⟨hcur, hfree⟩ := hslot cur h
    have hfilter :
        (cur ++ us).filter (fun u => decide ¬(u.jasonValueStr = jvk)) = cur := by
      rw [List.filter_append, hfilterUs, List.append_nil]
      exact List.filter_eq_self.mpr (fun u hu => by simpa using hfree u hu)
    have hlen : cur.length ≠ 0 := by
      intro hl
      exact hcur (List.eq_nil_of_length_eq_zero hl)
    rw [updateKey_ss h (show addF us (some cur) = some (cur ++ us) from rfl)]
    rw [removeUpdaters_eq_updateKey]
    have hremF : removeF jvk (some (cur ++ us)) = some cur := by
      simp only [removeF]
      rw [hfilter, if_pos hlen]
    rw [updateKey_ss (assocGet_set_self reg key (cur ++ us)) hremF,
      assocSet_set_same]
    exact assocSet_get_self h
  | none =>
    rw [updateKey_ns h (show addF us none = some us from rfl)]
    rw [removeUpdaters_eq_updateKey]
    have hget : assocGet (reg ++ [(key, us)]) key = some us := by
      rw [assocGet_append_right h]
      simp [assocGet]
    have hremF : removeF jvk (some us) = none := by
      simp only [removeF]
      rw [hfilterUs]
      simp
    rw [updateKey_sn hget hremF, assocErase_append, assocErase_of_get_none h]
    have h2 : assocErase [(key, us)] key = [] := by
      simp [assocErase]
    rw [h2, List.append_nil]

theorem remove_foldl_addSlot_comm (k : TableKey) (jv : String) :
    ∀ (rest : Key2Updaters) (r : Key2Updaters), (∀ kv ∈ rest, kv.1 ≠ k) →
      (addUpdaters r rest).removeUpdaters k jv =
        addUpdaters (r.removeUpdaters k jv) rest := by
  intro rest
  induction rest with
  | nil => intro r _; rfl
  | cons kv rest ih =>
    intro r hne
    obtain ⟨k1, us1⟩ := kv
    rw [addUpdaters_cons, addUpdaters_cons]
    rw [ih _ (fun kv2 h2 => hne kv2 (List.mem_cons_of_mem _ h2))]
    have hk1 : k1 ≠ k := hne (k1, us1) (List.mem_cons_self _ _)
    congr 1
    rw [addSlotUpdaters_eq_updateKey, addSlotUpdaters_eq_updateKey,
      removeUpdaters_eq_updateKey, removeUpdaters_eq_updateKey]
    exact updateKey_comm (fun hh => hk1 hh.symm) (removeF jv) (addF us1)
      (removeF_none jv) r

theorem add_remove_roundtrip_aux (jvk : String) :
    ∀ (U : Key2Updaters), KeysNodup U →
      (∀ kv ∈ U, ∀ u ∈ kv.2, u.jasonValueStr = jvk) →
      ∀ (reg : Key2Updaters),
        (∀ kv ∈ reg, ∀ u ∈ kv.2, u.jasonValueStr ≠ jvk) →
        (∀ kv ∈ reg, kv.2 ≠ []) →
        removeUpdatersKeys (addUpdaters reg U) (U.map Prod.fst) jvk = reg := by
  intro U
  induction U with
  | nil => intro _ _ reg _ _; rfl
  | cons kv U ih =>
    intro hUN hU reg hreg hne
    obtain ⟨k, us⟩ := kv
    have hUN2 : KeysNodup U := by
      unfold KeysNodup at hUN ⊢
      simp only [List.map_cons, List.nodup_cons] at hUN
      exact hUN.2
    have hknotin : k ∉ U.map Prod.fst := by
      unfold KeysNodup at hUN
      simp only [List.map_cons, List.nodup_cons] at hUN
      exact hUN.1
    rw [List.map_cons, addUpdaters_cons, removeUpdatersKeys_cons]
    rw [remove_foldl_addSlot_comm k jvk U (addSlotUpdaters reg k us)
      (fun kv2 h2 hh => hknotin (hh ▸ List.mem_map.mpr ⟨kv2, h2, rfl⟩))]
    rw [addSlot_then_remove reg k us jvk
      (fun u hu => hU (k, us) (List.mem_cons_self _ _) u hu)
      (fun cur hcur => ⟨hne (k, cur) (assocGet_mem hcur),
        fun u hu => hreg (k, cur) (assocGet_mem hcur) u hu⟩)]
    exact ih hUN2 (fun kv2 h2 => hU kv2 (List.mem_cons_of_mem _ h2)) reg hreg hne

theorem removeKey_removeAll_comm (jv : String) (k : TableKey) :
    ∀ (keys : List TableKey) (r : Key2Updaters),
      (removeUpdatersKeys r keys jv).removeUpdaters k jv =
        removeUpdatersKeys (r.removeUpdaters k jv) keys jv := by
  intro keys
  induction keys with
  | nil => intro r; rfl
  | cons k0 ks ih =>
    intro r
    rw [removeUpdatersKeys_cons, removeUpdatersKeys_cons, ih,
      removeUpdaters_comm]

theorem removeAll_idem (reg : Key2Updaters) (keys : List TableKey) (jv : String) :
    removeUpdatersKeys (removeUpdatersKeys reg keys jv) keys jv =
      removeUpdatersKeys reg keys jv := by
  induction keys generalizing reg with
  | nil => rfl
  | cons k ks ih =>
    rw [removeUpdatersKeys_cons, removeUpdatersKeys_cons,
      removeKey_removeAll_comm, removeUpdaters_idem]
    exact ih (reg.removeUpdaters k jv)

theorem removeUpdaters_no_empty (reg : Key2Updaters) (key : TableKey)
    (jv : String) (h : ∀ kv ∈ reg, kv.2 ≠ []) :
    ∀ kv ∈ reg.removeUpdaters key jv, kv.2 ≠ [] := by
  unfold Key2Updaters.removeUpdaters
  cases hg : assocGet reg key with
  | none => exact h
  | some us =>
    simp only
    by_cases hlen :
        (us.filter (fun u => decide ¬(u.jasonValueStr = jv))).length ≠ 0
    · simp only [if_pos hlen]
      intro kv hkv
      rcases mem_assocSet hkv with hkv | hkv
      · exact h kv hkv
      · subst hkv
        show us.filter (fun u => decide ¬(u.jasonValueStr = jv)) ≠ []
        intro hnil
        apply hlen
        rw [hnil]
        rfl
    · simp only [if_neg hlen]
      intro kv hkv
      exact h kv (mem_assocErase hkv)

theorem removeAll_no_empty (reg : Key2Updaters) (keys : List TableKey)
    (jv : String) (h : ∀ kv ∈ reg, kv.2 ≠ []) :
    ∀ kv ∈ removeUpdatersKeys reg keys jv, kv.2 ≠ [] := by
  induction keys generalizing reg with
  | nil => exact h
  | cons k ks ih =>
    rw [removeUpdatersKeys_cons]
    exact ih _ (removeUpdaters_no_empty reg k jv h)

theorem removeUpdaters_absent (reg : Key2Updaters) (key : TableKey) (jv : String)
    (h : assocGet reg key = none) : reg.removeUpdaters key jv = reg := by
  unfold Key2Updaters.removeUpdaters
  rw [h]

/-! ## The claims -/

/-- Claim C5.  The claim states that `addUpdaters` deduplicates: an incoming
updater deep-equal to one already present in its target slot is skipped rather
than appended.  The code does not: the inner loop's `continue` only advances
the inner loop, so the deep-equal duplicate is appended anyway (the repo's own
`TestAddRemoveUpdaters` expects the registry to be unchanged by the second
add).  This theorem evaluates the embedded `addUpdaters` at the failing input:
a registry whose slot already holds `uC5` and the incoming map carrying the
deep-equal `uC5`; the slot ends up holding the updater twice. -/
theorem C5_addUpdaters_appends_duplicate :
    addUpdaters [(tkC5, [uC5])] [(tkC5, [uC5])] = [(tkC5, [uC5, uC5])] := by
  rfl

/-- Claim C6 counterexample.  The claim quantifies over every prior registry
state; taking a prior registry that already holds an updater carrying the
incoming jsonValue key ("jv6"), `add(U); remove(keys(U), jvk(U))` strips the
prior updater as well, leaving the empty registry instead of the prior one. -/
theorem C6_add_remove_not_identity :
    removeUpdatersKeys (addUpdaters [(tkC6, [uC6prior])] [(tkC6, [uC6new])])
      ([(tkC6, [uC6new])].map Prod.fst) "jv6" ≠ [(tkC6, [uC6prior])] := by
  decide

/-- Claim C6 (amended): if no updater of the prior registry carries the
jsonValue key of `U`, no slot of the prior registry is empty, and the keys of
`U` are distinct (as they are for a Go map), then `addUpdaters U` followed by
`removeUpdaters (keys U) (jvk U)` restores the registry exactly. -/
theorem C6_add_remove_roundtrip (reg U : Key2Updaters) (jvk : String)
    (hUN : KeysNodup U)
    (hU : ∀ kv ∈ U, ∀ u ∈ kv.2, u.jasonValueStr = jvk)
    (hreg : ∀ kv ∈ reg, ∀ u ∈ kv.2, u.jasonValueStr ≠ jvk)
    (hne : ∀ kv ∈ reg, kv.2 ≠ []) :
    removeUpdatersKeys (addUpdaters reg U) (U.map Prod.fst) jvk = reg :=
  add_remove_roundtrip_aux jvk U hUN hU reg hreg hne

/-- Claim C6 witness: the round trip at a concrete registry holding `uC6w`
under "jvOld" and an incoming map registering `uC6wNew` under "jvNew". -/
theorem C6_add_remove_roundtrip_witness :
    removeUpdatersKeys (addUpdaters [(tkC6w, [uC6w])] [(tkC6w, [uC6wNew])])
      ([(tkC6w, [uC6wNew])].map Prod.fst) "jvNew" = [(tkC6w, [uC6w])] :=
  C6_add_remove_roundtrip [(tkC6w, [uC6w])] [(tkC6w, [uC6wNew])] "jvNew"
    (by decide) (by decide) (by decide) (by decide)

/-- Claim C10 counterexample.  The claim states that after any
`removeUpdaters(keys, jsonValue)` call no table key of the registry maps to an
empty updater list; but a slot that was already empty before the call and
whose key is not touched by the removal survives it. -/
theorem C10_empty_slot_persists :
    (tkC10, ([] : List updater)) ∈
      removeUpdatersKeys [(tkC10, [])] [tkC10other] "jv10" := by
  decide

/-- Claim C10 (amended): `removeUpdaters` is idempotent and ignores keys that
are absent from the registry; and it never creates an empty slot — if no slot
is empty before the call, none is after (a pre-existing empty slot at an
untouched key can survive, which is what the counterexample exhibits). -/
theorem C10_remove_idempotent (reg : Key2Updaters) (keys : List TableKey)
    (jv : String) :
    removeUpdatersKeys (removeUpdatersKeys reg keys jv) keys jv =
        removeUpdatersKeys reg keys jv ∧
      (∀ key, assocGet reg key = none → reg.removeUpdaters key jv = reg) ∧
      ((∀ kv ∈ reg, kv.2 ≠ []) →
        ∀ kv ∈ removeUpdatersKeys reg keys jv, kv.2 ≠ []) :=
  ⟨removeAll_idem reg keys jv,
   fun key h => removeUpdaters_absent reg key jv h,
   fun h => removeAll_no_empty reg keys jv h⟩

/-- Claim C10 witness: idempotence and the no-empty-slot property at a
concrete registry whose only slot is emptied (and hence deleted) by the
removal. -/
theorem C10_remove_idempotent_witness :
    (removeUpdatersKeys (removeUpdatersKeys [(tkC10, [uC10])] [tkC10] "jv10")
        [tkC10] "jv10" =
      removeUpdatersKeys [(tkC10, [uC10])] [tkC10] "jv10") ∧
      Key2Updaters.removeUpdaters [(tkC10, [uC10])] tkC10other "jv10" =
        [(tkC10, [uC10])] ∧
      ∀ kv ∈ removeUpdatersKeys [(tkC10, [uC10])] [tkC10] "jv10", kv.2 ≠ [] := by
  have h := C10_remove_idempotent [(tkC10, [uC10])] [tkC10] "jv10"
  exact ⟨h.1, h.2.1 tkC10other (by decide), h.2.2 (by decide)⟩

/-- Claim C7: the revision checker is monotonically non-decreasing; a call of
`notify` with a non-empty batch whose revision is at most the stored revision
hands off zero notifications and leaves the state (in particular the stored
revision) unchanged; a non-empty batch with a strictly greater revision
advances the stored revision to the batch revision, and the handed-off
notifications are exactly the result of `prepareTableUpdate` on the batch
(computed after the advance). -/
theorem C7_revision_gating (m : DbMonitorState) (events : List Event)
    (revision : Int) :
    m.revision ≤ (m.notify events revision).1.revision ∧
      (events ≠ [] → revision ≤ m.revision → m.notify events revision = (m, [])) ∧
      (events ≠ [] → m.revision < revision →
        (m.notify events revision).1.revision = revision ∧
        (m.notify events revision).2 =
          prepareTableUpdate m.key2Updaters events) := by
  refine ⟨?_, ?_, ?_⟩
  · unfold DbMonitorState.notify isNewRevision
    by_cases he : events.length = 0
    · simp [he]
    · by_cases hr : revision > m.revision
      · simp only [if_neg he, if_pos hr]
        simp
        omega
      · simp only [if_neg he, if_pos hr]
        simp [hr]
  · intro hne hle
    have he : ¬ events.length = 0 := by
      simpa using hne
    have hr : ¬ revision > m.revision := by omega
    unfold DbMonitorState.notify isNewRevision
    simp [he, hr]
  · intro hne hlt
    have he : ¬ events.length = 0 := by
      simpa using hne
    have hr : revision > m.revision := hlt
    unfold DbMonitorState.notify isNewRevision
    simp [he, hr]

/-- Claim C7 witness: at stored revision 5, a one-event batch at revision 3 is
dropped with the state unchanged, and a one-event batch at revision 7 advances
the stored revision to 7. -/
theorem C7_revision_gating_witness :
    mC7.notify [evC7] 3 = (mC7, []) ∧ (mC7.notify [evC7] 7).1.revision = 7 := by
  have h3 := C7_revision_gating mC7 [evC7] 3
  have h7 := C7_revision_gating mC7 [evC7] 7
  exact ⟨h3.2.1 (by decide) (by decide), (h7.2.2 (by decide) (by decide)).1⟩

/-- Claim C9: for a Modify event whose `Select.Modify` gate is true and whose
decoded pre- and post-images carry different UUIDs, the updater returns the
UUID-changed error and emits no RowUpdate. -/
theorem C9_uuid_changed (u : updater) (event : Event)
    (modifiedRow prevRow : RowMap) (uuid prevUUID : String)
    (hev : event.etype = EventType.modify)
    (hgate : MSIsTrue u.sel.Modify = true)
    (hpost : u.prepareRow event.value = .ok (modifiedRow, uuid))
    (hprev : u.prepareRow event.prevValue = .ok (prevRow, prevUUID))
    (hne : uuid ≠ prevUUID) :
    u.prepareRowUpdate event =
      .error ("UUID was changed prev uuid=" ++ prevUUID ++ ", new uuid=" ++ uuid) := by
  simp only [updater.prepareRowUpdate, hev]
  simp [updater.prepareModifyRowUpdate, hgate, hpost, hprev, hne]

/-- Claim C9 witness: a concrete v2 modify event whose pre-image UUID "U1"
differs from the post-image UUID "U2" produces the error and no update. -/
theorem C9_uuid_changed_witness :
    uC9.prepareRowUpdate evC9 =
      .error ("UUID was changed prev uuid=" ++ "U1" ++ ", new uuid=" ++ "U2") :=
  C9_uuid_changed uC9 evC9 [("c1", .str "v")] [("c1", .str "v")] "U2" "U1"
    (by rfl) (by rfl) (by rfl) (by rfl) (by decide)

/-- Claim C2: once the `Select.Insert` gate passes and the post-image decodes,
a Create event with an empty projected row emits nothing; once the
`Select.Delete` gate passes and the pre-image decodes, a v2/v3 updater emits
`Delete: true` regardless of the projection (in particular for an empty
projected row), while a v1 updater emits `Old` = the projected pre-image only
when it is non-empty, and otherwise emits nothing. -/
theorem C2_create_empty_and_delete (u : updater) (eC eD : Event)
    (dataC dataD : RowMap) (uuidC uuidD : String)
    (hC : eC.etype = EventType.create)
    (hCg : MSIsTrue u.sel.Insert = true)
    (hCrow : u.prepareRow eC.value = .ok (dataC, uuidC))
    (hCempty : dataC = [])
    (hD : eD.etype = EventType.delete)
    (hDg : MSIsTrue u.sel.Delete = true)
    (hDrow : u.prepareRow eD.prevValue = .ok (dataD, uuidD)) :
    u.prepareRowUpdate eC = .ok (none, "") ∧
      (u.isV1 = false →
        u.prepareRowUpdate eD = .ok (some { Delete := true }, uuidD)) ∧
      (u.isV1 = true → dataD ≠ [] →
        u.prepareRowUpdate eD = .ok (some { Old := some dataD }, uuidD)) ∧
      (u.isV1 = true → dataD = [] →
        u.prepareRowUpdate eD = .ok (none, uuidD)) := by
  refine ⟨?_, ?_, ?_, ?_⟩
  · subst hCempty
    simp only [updater.prepareRowUpdate, hC]
    simp [updater.prepareCreateRowUpdate, hCg, hCrow]
  · intro hv1
    simp only [updater.prepareRowUpdate, hD]
    simp [updater.prepareDeleteRowUpdate, hDg, hDrow, hv1]
  · intro hv1 hne
    have hlen : dataD.length > 0 := by
      cases dataD with
      | nil => exact absurd rfl hne
      | cons a l => simp
    simp only [updater.prepareRowUpdate, hD]
    simp [updater.prepareDeleteRowUpdate, hDg, hDrow, hv1, hlen]
  · intro hv1 hnil
    subst hnil
    simp only [updater.prepareRowUpdate, hD]
    simp [updater.prepareDeleteRowUpdate, hDg, hDrow, hv1]

/-- Claim C2 witness: a v1 updater projecting the absent column "c3" sees an
empty projected row, so a gated Create emits nothing and a gated Delete (v1)
emits nothing; the same event against a v2 updater emits `Delete: true`. -/
theorem C2_create_empty_and_delete_witness :
    uC2v1.prepareRowUpdate evC2create = .ok (none, "") ∧
      uC2v1.prepareRowUpdate evC2delete = .ok (none, "U1") ∧
      uC2v2.prepareRowUpdate evC2delete = .ok (some { Delete := true }, "U1") := by
  have h1 := C2_create_empty_and_delete uC2v1 evC2create evC2delete [] [] "U1" "U1"
    (by rfl) (by rfl) (by rfl) (by rfl) (by rfl) (by rfl) (by rfl)
  have h2 := C2_create_empty_and_delete uC2v2 evC2create evC2delete [] [] "U1" "U1"
    (by rfl) (by rfl) (by rfl) (by rfl) (by rfl) (by rfl) (by rfl)
  exact ⟨h1.1, h1.2.2.2 (by rfl) rfl, h2.2.1 (by rfl)⟩

/-! ### Lemmas for C8 -/

theorem assocGet_none_forall {κ α : Type} [DecidableEq κ] {l : List (κ × α)}
    {k : κ} (h : assocGet l k = none) : ∀ kv ∈ l, kv.1 ≠ k := by
  induction l with
  | nil => intro kv hkv; cases hkv
  | cons p rest ih =>
    obtain ⟨k0, v0⟩ := p
    simp only [assocGet] at h
    by_cases hk : k0 = k
    · simp [hk] at h
    · simp [hk] at h
      intro kv hkv
      rcases List.mem_cons.mp hkv with hkv | hkv
      · subst hkv; exact hk
      · exact ih h kv hkv

theorem getAndDeleteUUID_no_uuid {data : RowMap} {uuid : String} {data1 : RowMap}
    (h : getAndDeleteUUID data = .ok (uuid, data1)) :
    assocGet data1 COL_UUID = none := by
  unfold getAndDeleteUUID at h
  split at h
  · cases h
  · split at h
    · split at h
      · injection h with h1
        injection h1 with h1 h2
        rw [← h2]
        exact assocGet_erase_self data COL_UUID
      · cases h
    · cases h

theorem foldl_project_no_uuid (data : RowMap)
    (hdata : assocGet data COL_UUID = none) :
    ∀ (cols : List String) (acc : RowMap), assocGet acc COL_UUID = none →
      assocGet (cols.foldl (fun newData column =>
        match assocGet data column with
        | some value => assocSet newData column value
        | none => newData) acc) COL_UUID = none := by
  intro cols
  induction cols with
  | nil => intro acc h; exact h
  | cons c cs ih =>
    intro acc hacc
    simp only [List.foldl_cons]
    apply ih
    cases hc : assocGet data c with
    | none => exact hacc
    | some v =>
      by_cases hcu : c = COL_UUID
      · rw [hcu] at hc
        rw [hc] at hdata
        cases hdata
      · rw [assocGet_set_other (fun hh => hcu hh.symm)]
        exact hacc

theorem deleteUnselectedColumns_no_uuid (u : updater) {data : RowMap}
    (h : assocGet data COL_UUID = none) :
    assocGet (u.deleteUnselectedColumns data) COL_UUID = none := by
  unfold updater.deleteUnselectedColumns
  by_cases hc : u.mcr.Columns.length ≠ 0
  · rw [if_pos hc]
    exact foldl_project_no_uuid data h u.mcr.Columns [] rfl
  · rw [if_neg hc]
    exact h

theorem prepareRow_no_uuid {u : updater} {value : GoVal} {data : RowMap}
    {uuid : String} (h : u.prepareRow value = .ok (data, uuid)) :
    assocGet data COL_UUID = none := by
  unfold updater.prepareRow at h
  split at h
  · cases h
  · split at h
    · cases h
    · injection h with h1
      injection h1 with h1 h2
      rw [← h1]
      apply deleteUnselectedColumns_no_uuid
      apply getAndDeleteUUID_no_uuid
      assumption

theorem cmrGo_no_uuid (u : updater) (M P : RowMap) :
    ∀ (l : List (String × GoVal)) (acc : RowMap),
      (∀ kv ∈ l, kv.1 ≠ COL_UUID) → assocGet acc COL_UUID = none →
      assocGet (compareModifiedRowsGo u M P l acc).1 COL_UUID = none := by
  intro l
  induction l with
  | nil => intro acc _ hacc; exact hacc
  | cons kv l ih =>
    intro acc hl hacc
    obtain ⟨column, cValue⟩ := kv
    have hcol : column ≠ COL_UUID := hl (column, cValue) (List.mem_cons_self _ _)
    have hl2 : ∀ kv ∈ l, kv.1 ≠ COL_UUID :=
      fun kv2 h2 => hl kv2 (List.mem_cons_of_mem _ h2)
    have hset : ∀ (v : GoVal), assocGet (assocSet acc column v) COL_UUID = none := by
      intro v
      rw [assocGet_set_other (fun hh => hcol hh.symm)]
      exact hacc
    unfold compareModifiedRowsGo
    by_cases heq : cValue = goIndex P column
    · rw [if_pos heq]
      exact ih acc hl2 hacc
    · rw [if_neg heq]
      cases hlook : u.tableSchema.LookupColumn column with
      | error e => exact hacc
      | ok cs =>
        dsimp only
        by_cases hmap : cs.colType = ColumnType.typeMap
        · rw [if_pos hmap]
          cases hcm : u.compareMaps (goIndex M column) (goIndex P column) cs with
          | error e => exact hacc
          | ok dm => exact ih _ hl2 (hset _)
        · rw [if_neg hmap]
          by_cases hsetT : cs.colType = ColumnType.typeSet
          · rw [if_pos hsetT]
            cases hcs : u.compareSets (goIndex M column) (goIndex P column) cs with
            | error e => exact hacc
            | ok ds => exact ih _ hl2 (hset _)
          · rw [if_neg hsetT]
            exact ih _ hl2 (hset _)

theorem compareModifiedRows_no_uuid (u : updater) {modifiedRow prevRow : RowMap}
    (h : assocGet modifiedRow COL_UUID = none) :
    assocGet (u.compareModifiedRows modifiedRow prevRow).1 COL_UUID = none :=
  cmrGo_no_uuid u modifiedRow prevRow modifiedRow []
    (assocGet_none_forall h) rfl

theorem RowUpdateNoUuid_New {data : RowMap} (h : assocGet data COL_UUID = none) :
    RowUpdateNoUuid { New := some data } := by
  refine ⟨?_, ?_, ?_, ?_, ?_⟩ <;> intro d hd
  · injection hd with hd; subst hd; exact h
  · cases hd
  · cases hd
  · cases hd
  · cases hd

theorem RowUpdateNoUuid_Insert {data : RowMap}
    (h : assocGet data COL_UUID = none) :
    RowUpdateNoUuid { Insert := some data } := by
  refine ⟨?_, ?_, ?_, ?_, ?_⟩ <;> intro d hd
  · cases hd
  · cases hd
  · cases hd
  · injection hd with hd; subst hd; exact h
  · cases hd

theorem RowUpdateNoUuid_Initial {data : RowMap}
    (h : assocGet data COL_UUID = none) :
    RowUpdateNoUuid { Initial := some data } := by
  refine ⟨?_, ?_, ?_, ?_, ?_⟩ <;> intro d hd
  · cases hd
  · cases hd
  · injection hd with hd; subst hd; exact h
  · cases hd
  · cases hd

theorem RowUpdateNoUuid_Old {data : RowMap} (h : assocGet data COL_UUID = none) :
    RowUpdateNoUuid { Old := some data } := by
  refine ⟨?_, ?_, ?_, ?_, ?_⟩ <;> intro d hd
  · cases hd
  · injection hd with hd; subst hd; exact h
  · cases hd
  · cases hd
  · cases hd

theorem RowUpdateNoUuid_Delete : RowUpdateNoUuid { Delete := true } := by
  refine ⟨?_, ?_, ?_, ?_, ?_⟩ <;> intro d hd <;> cases hd

theorem RowUpdateNoUuid_Modify {delta : RowMap}
    (h : assocGet delta COL_UUID = none) :
    RowUpdateNoUuid { Modify := some delta } := by
  refine ⟨?_, ?_, ?_, ?_, ?_⟩ <;> intro d hd
  · cases hd
  · cases hd
  · cases hd
  · cases hd
  · injection hd with hd; subst hd; exact h

theorem RowUpdateNoUuid_NewOld {data delta : RowMap}
    (h1 : assocGet data COL_UUID = none) (h2 : assocGet delta COL_UUID = none) :
    RowUpdateNoUuid { New := some data, Old := some delta } := by
  refine ⟨?_, ?_, ?_, ?_, ?_⟩ <;> intro d hd
  · injection hd with hd; subst hd; exact h1
  · injection hd with hd; subst hd; exact h2
  · cases hd
  · cases hd
  · cases hd

theorem prepareCreate_no_uuid (u : updater) (event : Event) :
    ∀ ru uuid, u.prepareCreateRowUpdate event = .ok (some ru, uuid) →
      RowUpdateNoUuid ru := by
  intro ru uuid h
  unfold updater.prepareCreateRowUpdate at h
  by_cases hgate : MSIsTrue u.sel.Insert = true
  · rw [if_pos hgate] at h
    cases hrow : u.prepareRow event.value with
    | error e => rw [hrow] at h; cases h
    | ok p =>
      obtain ⟨data, uuid0⟩ := p
      rw [hrow] at h
      dsimp only at h
      have hnu := prepareRow_no_uuid hrow
      by_cases hlen : data.length > 0
      · rw [if_pos hlen] at h
        by_cases hv : u.isV1 = true
        · rw [if_pos hv] at h
          injection h with h1
          injection h1 with h1 h2
          injection h1 with h1
          subst h1
          exact RowUpdateNoUuid_New hnu
        · rw [if_neg hv] at h
          injection h with h1
          injection h1 with h1 h2
          injection h1 with h1
          subst h1
          exact RowUpdateNoUuid_Insert hnu
      · rw [if_neg hlen] at h
        injection h with h1
        injection h1 with h1 h2
        cases h1
  · rw [if_neg hgate] at h
    injection h with h1
    injection h1 with h1 h2
    cases h1

theorem prepareDelete_no_uuid (u : updater) (event : Event) :
    ∀ ru uuid, u.prepareDeleteRowUpdate event = .ok (some ru, uuid) →
      RowUpdateNoUuid ru := by
  intro ru uuid h
  unfold updater.prepareDeleteRowUpdate at h
  by_cases hgate : MSIsTrue u.sel.Delete = true
  · rw [if_pos hgate] at h
    by_cases hv : u.isV1 = true
    · rw [if_pos hv] at h
      cases hrow : u.prepareRow event.prevValue with
      | error e => rw [hrow] at h; cases h
      | ok p =>
        obtain ⟨data, uuid0⟩ := p
        rw [hrow] at h
        dsimp only at h
        have hnu := prepareRow_no_uuid hrow
        by_cases hlen : data.length > 0
        · rw [if_pos hlen] at h
          injection h with h1
          injection h1 with h1 h2
          injection h1 with h1
          subst h1
          exact RowUpdateNoUuid_Old hnu
        · rw [if_neg hlen] at h
          injection h with h1
          injection h1 with h1 h2
          cases h1
    · rw [if_neg hv] at h
      cases hrow : u.prepareRow event.prevValue with
      | error e => rw [hrow] at h; cases h
      | ok p =>
        obtain ⟨data, uuid0⟩ := p
        rw [hrow] at h
        dsimp only at h
        injection h with h1
        injection h1 with h1 h2
        injection h1 with h1
        subst h1
        exact RowUpdateNoUuid_Delete
  · rw [if_neg hgate] at h
    injection h with h1
    injection h1 with h1 h2
    cases h1

theorem prepareModify_no_uuid (u : updater) (event : Event) :
    ∀ ru uuid, u.prepareModifyRowUpdate event = .ok (some ru, uuid) →
      RowUpdateNoUuid ru := by
  intro ru uuid h
  unfold updater.prepareModifyRowUpdate at h
  by_cases hgate : MSIsTrue u.sel.Modify = true
  · rw [if_pos hgate] at h
    cases hrow : u.prepareRow event.value with
    | error e => rw [hrow] at h; cases h
    | ok p =>
      obtain ⟨modifiedRow, uuid0⟩ := p
      rw [hrow] at h
      dsimp only at h
      cases hprev : u.prepareRow event.prevValue with
      | error e => rw [hprev] at h; cases h
      | ok q =>
        obtain ⟨prevRow, prevUUID⟩ := q
        rw [hprev] at h
        dsimp only at h
        have hnu := prepareRow_no_uuid hrow
        by_cases hne : uuid0 ≠ prevUUID
        · rw [if_pos hne] at h; cases h
        · rw [if_neg hne] at h
          have hdelta : assocGet
              (u.compareModifiedRows modifiedRow prevRow).1 COL_UUID = none :=
            compareModifiedRows_no_uuid u hnu
          by_cases hlen : (u.compareModifiedRows modifiedRow prevRow).1.length > 0
          · rw [if_pos hlen] at h
            by_cases hv : u.isV1 = true
            · rw [if_pos hv] at h
              injection h with h1
              injection h1 with h1 h2
              injection h1 with h1
              subst h1
              exact RowUpdateNoUuid_NewOld hnu hdelta
            · rw [if_neg hv] at h
              injection h with h1
              injection h1 with h1 h2
              injection h1 with h1
              subst h1
              exact RowUpdateNoUuid_Modify hdelta
          · rw [if_neg hlen] at h
            injection h with h1
            injection h1 with h1 h2
            cases h1
  · rw [if_neg hgate] at h
    injection h with h1
    injection h1 with h1 h2
    cases h1

theorem prepareInitial_no_uuid (u : updater) (value : GoVal) :
    ∀ ru uuid, u.prepareCreateRowInitial value = .ok (some ru, uuid) →
      RowUpdateNoUuid ru := by
  intro ru uuid h
  unfold updater.prepareCreateRowInitial at h
  by_cases hgate : MSIsTrue u.sel.Initial = true
  · rw [if_pos hgate] at h
    cases hrow : u.prepareRow value with
    | error e => rw [hrow] at h; cases h
    | ok p =>
      obtain ⟨data, uuid0⟩ := p
      rw [hrow] at h
      dsimp only at h
      have hnu := prepareRow_no_uuid hrow
      by_cases hlen : data.length > 0
      · rw [if_pos hlen] at h
        by_cases hv : u.isV1 = true
        · rw [if_pos hv] at h
          injection h with h1
          injection h1 with h1 h2
          injection h1 with h1
          subst h1
          exact RowUpdateNoUuid_New hnu
        · rw [if_neg hv] at h
          injection h with h1
          injection h1 with h1 h2
          injection h1 with h1
          subst h1
          exact RowUpdateNoUuid_Initial hnu
      · rw [if_neg hlen] at h
        injection h with h1
        injection h1 with h1 h2
        cases h1
  · rw [if_neg hgate] at h
    injection h with h1
    injection h1 with h1 h2
    cases h1

/-- Claim C8: for every event processed through `prepareRowUpdate` or
`prepareCreateRowInitial`, under every protocol variant and every column
projection (a projection explicitly listing `_uuid` included), the key `_uuid`
never appears in any emitted RowUpdate column map (`New`, `Old`, `Initial`,
`Insert`, or `Modify`); the UUID is returned separately as the row
identifier. -/
theorem C8_no_uuid_in_payload (u : updater) (event : Event) (value : GoVal) :
    (∀ ru uuid, u.prepareRowUpdate event = .ok (some ru, uuid) →
      RowUpdateNoUuid ru) ∧
    (∀ ru uuid, u.prepareCreateRowInitial value = .ok (some ru, uuid) →
      RowUpdateNoUuid ru) := by
  constructor
  · intro ru uuid h
    unfold updater.prepareRowUpdate at h
    split at h
    · exact prepareCreate_no_uuid u event ru uuid h
    · exact prepareDelete_no_uuid u event ru uuid h
    · exact prepareModify_no_uuid u event ru uuid h
  · exact prepareInitial_no_uuid u value

/-- Claim C8 witness: a v1 updater whose projection explicitly lists `_uuid`
still emits a `New` map without it on a concrete Create event. -/
theorem C8_no_uuid_in_payload_witness :
    RowUpdateNoUuid { New := some [("c1", GoVal.str "v")] } :=
  (C8_no_uuid_in_payload uC8 evC8 GoVal.null).1
    { New := some [("c1", GoVal.str "v")] } "U8" (by rfl)

/-- Claim C4.  The claim states that when the diff engine meets a changed
column that is absent from the table schema, only that column is skipped: the
remaining columns of the same Modify event are still compared and included,
and the emitted delta equals the delta over all schema-known columns.  The
code disagrees: `compareModifiedRows` returns the `SchemaLookupError`
immediately, abandoning every column not yet iterated, and
`prepareModifyRowUpdate` discards that error and consults only the partial
delta.  At the failing input below, the row changes in the unknown column
"c1" and the schema-known column "c2"; the claim requires the delta to be
exactly the c2 entry, but the code aborts the diff at "c1" with an empty
partial delta and emits no RowUpdate at all. -/
theorem C4_schema_error_aborts_diff :
    uC4.tableSchema.LookupColumn "c2" = .ok ⟨ColumnType.typeScalar⟩ ∧
      goIndex [("c1", .str "a1"), ("c2", .str "b1")] "c2" ≠
        goIndex [("c1", .str "a0"), ("c2", .str "b0")] "c2" ∧
      uC4.compareModifiedRows [("c1", .str "a1"), ("c2", .str "b1")]
          [("c1", .str "a0"), ("c2", .str "b0")] =
        ([], .error "no schema for column c1") ∧
      uC4.prepareRowUpdate evC4 = .ok (none, "") := by
  refine ⟨rfl, by decide, rfl, rfl⟩

/-! ### Lemmas for C1 -/

theorem assocGet_of_mem_nodup {κ α : Type} [DecidableEq κ]
    {l : List (κ × α)} {k : κ} {v : α} (hn : KeysNodup l) (h : (k, v) ∈ l) :
    assocGet l k = some v := by
  induction l with
  | nil => cases h
  | cons p rest ih =>
    obtain ⟨k0, v0⟩ := p
    unfold KeysNodup at hn
    simp only [List.map_cons, List.nodup_cons] at hn
    rcases List.mem_cons.mp h with h | h
    · injection h with h1 h2
      subst h1
      subst h2
      simp [assocGet]
    · have hne : k0 ≠ k := by
        intro hh
        subst hh
        exact hn.1 (List.mem_map.mpr ⟨(k0, v), h, rfl⟩)
      simp only [assocGet, if_neg hne]
      exact ih hn.2 h

theorem cmrGo_untouched (u : updater) (M P : RowMap) (c : String) :
    ∀ (l : List (String × GoVal)) (acc : RowMap), (∀ kv ∈ l, kv.1 ≠ c) →
      assocGet (compareModifiedRowsGo u M P l acc).1 c = assocGet acc c := by
  intro l
  induction l with
  | nil => intro acc _; rfl
  | cons kv l ih =>
    intro acc hl
    obtain ⟨column, cValue⟩ := kv
    have hcol : column ≠ c := hl (column, cValue) (List.mem_cons_self _ _)
    have hl2 : ∀ kv ∈ l, kv.1 ≠ c :=
      fun kv2 h2 => hl kv2 (List.mem_cons_of_mem _ h2)
    have hset : ∀ (v : GoVal) (acc1 : RowMap),
        assocGet (assocSet acc1 column v) c = assocGet acc1 c :=
      fun v acc1 => assocGet_set_other (fun hh => hcol hh.symm) acc1 v
    unfold compareModifiedRowsGo
    by_cases heq : cValue = goIndex P column
    · rw [if_pos heq]
      exact ih acc hl2
    · rw [if_neg heq]
      cases hlook : u.tableSchema.LookupColumn column with
      | error e => rfl
      | ok cs =>
        dsimp only
        by_cases hmap : cs.colType = ColumnType.typeMap
        · rw [if_pos hmap]
          cases hcm : u.compareMaps (goIndex M column) (goIndex P column) cs with
          | error e => rfl
          | ok dm => rw [ih _ hl2, hset]
        · rw [if_neg hmap]
          by_cases hsetT : cs.colType = ColumnType.typeSet
          · rw [if_pos hsetT]
            cases hcs : u.compareSets (goIndex M column) (goIndex P column) cs with
            | error e => rfl
            | ok ds => rw [ih _ hl2, hset]
          · rw [if_neg hsetT]
            rw [ih _ hl2, hset]

theorem cmrGo_isSome_mono (u : updater) (M P : RowMap) (c : String) :
    ∀ (l : List (String × GoVal)) (acc : RowMap),
      (assocGet acc c).isSome = true →
      (assocGet (compareModifiedRowsGo u M P l acc).1 c).isSome = true := by
  intro l
  induction l with
  | nil => intro acc h; exact h
  | cons kv l ih =>
    intro acc hacc
    obtain ⟨column, cValue⟩ := kv
    have hset : ∀ (v : GoVal),
        (assocGet (assocSet acc column v) c).isSome = true := by
      intro v
      by_cases hc : column = c
      · subst hc
        rw [assocGet_set_self]
        rfl
      · rw [assocGet_set_other (fun hh => hc hh.symm)]
        exact hacc
    unfold compareModifiedRowsGo
    by_cases heq : cValue = goIndex P column
    · rw [if_pos heq]
      exact ih acc hacc
    · rw [if_neg heq]
      cases hlook : u.tableSchema.LookupColumn column with
      | error e => exact hacc
      | ok cs =>
        dsimp only
        by_cases hmap : cs.colType = ColumnType.typeMap
        · rw [if_pos hmap]
          cases hcm : u.compareMaps (goIndex M column) (goIndex P column) cs with
          | error e => exact hacc
          | ok dm => exact ih _ (hset _)
        · rw [if_neg hmap]
          by_cases hsetT : cs.colType = ColumnType.typeSet
          · rw [if_pos hsetT]
            cases hcs : u.compareSets (goIndex M column) (goIndex P column) cs with
            | error e => exact hacc
            | ok ds => exact ih _ (hset _)
          · rw [if_neg hsetT]
            exact ih _ (hset _)

theorem cmrGo_mem_isSome (u : updater) (M P : RowMap) :
    ∀ (l : List (String × GoVal)) (acc : RowMap),
      (compareModifiedRowsGo u M P l acc).2 = .ok () →
      ∀ c v, (c, v) ∈ l → v ≠ goIndex P c →
      (assocGet (compareModifiedRowsGo u M P l acc).1 c).isSome = true := by
  intro l
  induction l with
  | nil =>
    intro acc _ c v hmem
    cases hmem
  | cons kv l ih =>
    intro acc hok c v hmem hne
    obtain ⟨column, cValue⟩ := kv
    unfold compareModifiedRowsGo at hok ⊢
    by_cases heq : cValue = goIndex P column
    · rw [if_pos heq] at hok ⊢
      rcases List.mem_cons.mp hmem with hmem | hmem
      · injection hmem with h1 h2
        subst h1
        subst h2
        exact absurd heq hne
      · exact ih acc hok c v hmem hne
    · rw [if_neg heq] at hok ⊢
      cases hlook : u.tableSchema.LookupColumn column with
      | error e =>
        rw [hlook] at hok
        cases hok
      | ok cs =>
        rw [hlook] at hok
        dsimp only at hok ⊢
        by_cases hmap : cs.colType = ColumnType.typeMap
        · rw [if_pos hmap] at hok ⊢
          cases hcm : u.compareMaps (goIndex M column) (goIndex P column) cs with
          | error e =>
            rw [hcm] at hok
            cases hok
          | ok dm =>
            rw [hcm] at hok
            rcases List.mem_cons.mp hmem with hmem | hmem
            · injection hmem with h1 h2
              subst h1
              apply cmrGo_isSome_mono
              rw [assocGet_set_self]
              rfl
            · exact ih _ hok c v hmem hne
        · rw [if_neg hmap] at hok ⊢
          by_cases hsetT : cs.colType = ColumnType.typeSet
          · rw [if_pos hsetT] at hok ⊢
            cases hcs : u.compareSets (goIndex M column) (goIndex P column) cs with
            | error e =>
              rw [hcs] at hok
              cases hok
            | ok ds =>
              rw [hcs] at hok
              rcases List.mem_cons.mp hmem with hmem | hmem
              · injection hmem with h1 h2
                subst h1
                apply cmrGo_isSome_mono
                rw [assocGet_set_self]
                rfl
              · exact ih _ hok c v hmem hne
          · rw [if_neg hsetT] at hok ⊢
            rcases List.mem_cons.mp hmem with hmem | hmem
            · injection hmem with h1 h2
              subst h1
              apply cmrGo_isSome_mono
              rw [assocGet_set_self]
              rfl
            · exact ih _ hok c v hmem hne

theorem cmrGo_scalar_val (u : updater) (M P : RowMap) :
    ∀ (l : List (String × GoVal)) (acc : RowMap),
      (compareModifiedRowsGo u M P l acc).2 = .ok () → KeysNodup l →
      ∀ c v cs, (c, v) ∈ l → v ≠ goIndex P c →
        u.tableSchema.LookupColumn c = .ok cs →
        cs.colType = ColumnType.typeScalar →
        assocGet (compareModifiedRowsGo u M P l acc).1 c =
          some (if u.isV1 then goIndex P c else goIndex M c) := by
  intro l
  induction l with
  | nil =>
    intro acc _ _ c v cs hmem
    cases hmem
  | cons kv l ih =>
    intro acc hok hnodup c v cs hmem hne hlook hscalar
    obtain ⟨column, cValue⟩ := kv
    have hnodup2 : KeysNodup l := by
      unfold KeysNodup at hnodup ⊢
      simp only [List.map_cons, List.nodup_cons] at hnodup
      exact hnodup.2
    unfold compareModifiedRowsGo at hok ⊢
    by_cases heq : cValue = goIndex P column
    · rw [if_pos heq] at hok ⊢
      rcases List.mem_cons.mp hmem with hmem | hmem
      · injection hmem with h1 h2
        subst h1
        subst h2
        exact absurd heq hne
      · exact ih acc hok hnodup2 c v cs hmem hne hlook hscalar
    · rw [if_neg heq] at hok ⊢
      rcases List.mem_cons.mp hmem with hmem | hmem
      · injection hmem with h1 h2
        subst h1
        subst h2
        rw [hlook] at hok ⊢
        dsimp only at hok ⊢
        have hnmap : ¬ cs.colType = ColumnType.typeMap := by
          rw [hscalar]
          intro hh
          cases hh
        have hnset : ¬ cs.colType = ColumnType.typeSet := by
          rw [hscalar]
          intro hh
          cases hh
        rw [if_neg hnmap, if_neg hnset] at hok ⊢
        have hnotin : ∀ kv2 ∈ l, kv2.1 ≠ c := by
          intro kv2 h2 hh
          unfold KeysNodup at hnodup
          simp only [List.map_cons, List.nodup_cons] at hnodup
          exact hnodup.1 (hh ▸ List.mem_map.mpr ⟨kv2, h2, rfl⟩)
        rw [cmrGo_untouched u M P c l _ hnotin, assocGet_set_self]
      · have hlaterne : column ≠ c := by
          intro hh
          subst hh
          unfold KeysNodup at hnodup
          simp only [List.map_cons, List.nodup_cons] at hnodup
          exact hnodup.1 (List.mem_map.mpr ⟨(column, v), hmem, rfl⟩)
        cases hlook2 : u.tableSchema.LookupColumn column with
        | error e =>
          try rw [hlook2] at hok
          dsimp only at hok
          cases hok
        | ok cs2 =>
          try rw [hlook2] at hok
          try rw [hlook2]
          dsimp only at hok ⊢
          by_cases hmap : cs2.colType = ColumnType.typeMap
          · rw [if_pos hmap] at hok ⊢
            cases hcm : u.compareMaps (goIndex M column) (goIndex P column) cs2 with
            | error e =>
              rw [hcm] at hok
              cases hok
            | ok dm =>
              rw [hcm] at hok
              exact ih _ hok hnodup2 c v cs hmem hne hlook hscalar
          · rw [if_neg hmap] at hok ⊢
            by_cases hsetT : cs2.colType = ColumnType.typeSet
            · rw [if_pos hsetT] at hok ⊢
              cases hcs : u.compareSets (goIndex M column) (goIndex P column) cs2 with
              | error e =>
                rw [hcs] at hok
                cases hok
              | ok ds =>
                rw [hcs] at hok
                exact ih _ hok hnodup2 c v cs hmem hne hlook hscalar
            · rw [if_neg hsetT] at hok ⊢
              exact ih _ hok hnodup2 c v cs hmem hne hlook hscalar

theorem cmrGo_all_eq (u : updater) (M P : RowMap) :
    ∀ (l : List (String × GoVal)) (acc : RowMap),
      (∀ kv ∈ l, kv.2 = goIndex P kv.1) →
      compareModifiedRowsGo u M P l acc = (acc, .ok ()) := by
  intro l
  induction l with
  | nil => intro acc _; rfl
  | cons kv l ih =>
    intro acc hall
    obtain ⟨column, cValue⟩ := kv
    unfold compareModifiedRowsGo
    rw [if_pos (hall (column, cValue) (List.mem_cons_self _ _))]
    exact ih acc (fun kv2 h2 => hall kv2 (List.mem_cons_of_mem _ h2))

/-- Claim C1: for a Modify event whose gate is true, whose images decode to
the same UUID, and whose per-column diff runs without a schema error: if some
column of the projected post-image differs from its value in the projected
pre-image, a v1 updater emits `New` = the full projected post-image and `Old`
= the per-column delta, while a v2/v3 updater emits `Modify` = the delta; for
scalar columns the delta stores the previous value in v1 and the new value in
v2/v3; and if every projected column is equal in pre and post, no RowUpdate is
emitted. -/
theorem C1_modify_semantics (u : updater) (event : Event) (post prev : RowMap)
    (uuid : String)
    (hev : event.etype = EventType.modify)
    (hgate : MSIsTrue u.sel.Modify = true)
    (hpost : u.prepareRow event.value = .ok (post, uuid))
    (hprev : u.prepareRow event.prevValue = .ok (prev, uuid))
    (hnodup : KeysNodup post)
    (hok : (u.compareModifiedRows post prev).2 = .ok ()) :
    ((∃ c v, (c, v) ∈ post ∧ v ≠ goIndex prev c) →
      (u.isV1 = true → u.prepareRowUpdate event = .ok (some
        { New := some post,
          Old := some (u.compareModifiedRows post prev).1 }, uuid)) ∧
      (u.isV1 = false → u.prepareRowUpdate event = .ok (some
        { Modify := some (u.compareModifiedRows post prev).1 }, uuid))) ∧
    (∀ c v cs, (c, v) ∈ post → v ≠ goIndex prev c →
      u.tableSchema.LookupColumn c = .ok cs →
      cs.colType = ColumnType.typeScalar →
      assocGet (u.compareModifiedRows post prev).1 c =
        some (if u.isV1 then goIndex prev c else goIndex post c)) ∧
    ((∀ c, goIndex post c = goIndex prev c) →
      u.prepareRowUpdate event = .ok (none, "")) := by
  refine ⟨?_, ?_, ?_⟩
  · rintro ⟨c, v, hmem, hne⟩
    have hsome : (assocGet (u.compareModifiedRows post prev).1 c).isSome = true :=
      cmrGo_mem_isSome u post prev post [] hok c v hmem hne
    have hlen : 0 < (u.compareModifiedRows post prev).1.length := by
      cases hdelta : (u.compareModifiedRows post prev).1 with
      | nil =>
        rw [hdelta] at hsome
        simp [assocGet] at hsome
      | cons a l => simp
    constructor
    · intro hv1
      simp only [updater.prepareRowUpdate, hev]
      simp [updater.prepareModifyRowUpdate, hgate, hpost, hprev, hlen, hv1]
    · intro hv1
      simp only [updater.prepareRowUpdate, hev]
      simp [updater.prepareModifyRowUpdate, hgate, hpost, hprev, hlen, hv1]
  · intro c v cs hmem hne hlook hscalar
    exact cmrGo_scalar_val u post prev post [] hok hnodup c v cs hmem hne
      hlook hscalar
  · intro hall
    have hdelta : u.compareModifiedRows post prev = ([], .ok ()) := by
      refine cmrGo_all_eq u post prev post [] ?_
      intro kv hkv
      have hget : assocGet post kv.1 = some kv.2 :=
        assocGet_of_mem_nodup hnodup hkv
      have hgi : goIndex post kv.1 = kv.2 := by
        unfold goIndex
        rw [hget]
        rfl
      rw [← hall kv.1, hgi]
    simp only [updater.prepareRowUpdate, hev]
    simp [updater.prepareModifyRowUpdate, hgate, hpost, hprev, hdelta]

/-- Claim C1 witness: the concrete v2 modify scenario of the spec, where only
column c2 changes; the emitted update is `Modify = the delta of new values`
and the delta binds c2 to the new value "v3". -/
theorem C1_modify_semantics_witness :
    uC1.prepareRowUpdate evC1 =
      .ok (some { Modify := some [("c2", GoVal.str "v3")] }, "U1") ∧
    assocGet (uC1.compareModifiedRows
        [("c1", GoVal.str "v1"), ("c2", GoVal.str "v3")]
        [("c1", GoVal.str "v1"), ("c2", GoVal.str "v2")]).1 "c2" =
      some (GoVal.str "v3") := by
  have h := C1_modify_semantics uC1 evC1
    [("c1", GoVal.str "v1"), ("c2", GoVal.str "v3")]
    [("c1", GoVal.str "v1"), ("c2", GoVal.str "v2")] "U1"
    rfl rfl rfl rfl (by decide) rfl
  constructor
  · exact (h.1 ⟨"c2", GoVal.str "v3", by decide, by decide⟩).2 rfl
  · exact h.2.1 "c2" (GoVal.str "v3") ⟨ColumnType.typeScalar⟩ (by decide)
      (by decide) rfl rfl

/-! ### Lemmas for C3 -/

theorem assocGet_filter {κ α : Type} [DecidableEq κ] (p : κ × α → Bool) :
    ∀ (l : List (κ × α)), KeysNodup l → ∀ k,
      assocGet (l.filter p) k =
        match assocGet l k with
        | some v => if p (k, v) then some v else none
        | none => none := by
  intro l
  induction l with
  | nil => intro _ k; rfl
  | cons q rest ih =>
    intro hn k
    obtain ⟨k0, v0⟩ := q
    have hn2 : KeysNodup rest := by
      unfold KeysNodup at hn ⊢
      simp only [List.map_cons, List.nodup_cons] at hn
      exact hn.2
    have hknotin : k0 ∉ rest.map Prod.fst := by
      unfold KeysNodup at hn
      simp only [List.map_cons, List.nodup_cons] at hn
      exact hn.1
    rw [List.filter_cons]
    by_cases hp : p (k0, v0) = true
    · rw [if_pos hp]
      by_cases hk : k0 = k
      · subst hk
        simp [assocGet, hp]
      · simp only [assocGet, if_neg hk]
        exact ih hn2 k
    · simp only [hp, if_false]
      by_cases hk : k0 = k
      · subst hk
        have hnone : assocGet (rest.filter p) k0 = none := by
          apply assocGet_none_of_not_mem
          intro hmem
          obtain ⟨q, hq, hqk⟩ := List.mem_map.mp hmem
          exact hknotin
            (List.mem_map.mpr ⟨q, List.mem_of_mem_filter hq, hqk⟩)
        simp [assocGet, hnone, hp]
      · simp only [assocGet, if_neg hk]
        exact ih hn2 k

theorem compareMaps_phase1 (prevM : List (GoVal × GoVal)) :
    ∀ (l acc : List (GoVal × GoVal)), KeysNodup l →
      (∀ kv ∈ l, assocGet acc kv.1 = none) →
      l.foldl (fun acc kv =>
        match assocGet prevM kv.1 with
        | some pv => if kv.2 ≠ pv then assocSet acc kv.1 kv.2 else acc
        | none => assocSet acc kv.1 kv.2) acc =
      acc ++ l.filter (fun kv =>
        match assocGet prevM kv.1 with
        | some pv => decide (kv.2 ≠ pv)
        | none => true) := by
  intro l
  induction l with
  | nil => intro acc _ _; simp
  | cons kv rest ih =>
    intro acc hn hacc
    have hn2 : KeysNodup rest := by
      unfold KeysNodup at hn ⊢
      simp only [List.map_cons, List.nodup_cons] at hn
      exact hn.2
    have hknotin : kv.1 ∉ rest.map Prod.fst := by
      unfold KeysNodup at hn
      simp only [List.map_cons, List.nodup_cons] at hn
      exact hn.1
    have hacc0 : assocGet acc kv.1 = none := hacc kv (List.mem_cons_self _ _)
    have haccrest : ∀ kv2 ∈ rest,
        assocGet (acc ++ [(kv.1, kv.2)]) kv2.1 = none := by
      intro kv2 h2
      rw [assocGet_append_right (hacc kv2 (List.mem_cons_of_mem _ h2))]
      have hne : kv.1 ≠ kv2.1 := by
        intro hh
        exact hknotin (hh ▸ List.mem_map.mpr ⟨kv2, h2, rfl⟩)
      simp [assocGet, hne]
    simp only [List.foldl_cons, List.filter_cons]
    cases hm : assocGet prevM kv.1 with
    | some pv =>
      dsimp only
      by_cases hne : kv.2 ≠ pv
      · rw [if_pos hne]
        rw [assocSet_append_absent hacc0]
        rw [ih (acc ++ [(kv.1, kv.2)]) hn2 haccrest]
        simp [hne]
      · rw [if_neg hne]
        rw [ih acc hn2 (fun kv2 h2 => hacc kv2 (List.mem_cons_of_mem _ h2))]
        simp at hne
        simp [hne]
    | none =>
      dsimp only
      rw [assocSet_append_absent hacc0]
      rw [ih (acc ++ [(kv.1, kv.2)]) hn2 haccrest]
      simp

theorem compareMaps_phase2 (newM : List (GoVal × GoVal)) :
    ∀ (l acc : List (GoVal × GoVal)), KeysNodup l →
      (∀ kv ∈ l, assocGet newM kv.1 = none → assocGet acc kv.1 = none) →
      l.foldl (fun acc pkv =>
        match assocGet acc pkv.1 with
        | some _ => acc
        | none =>
          match assocGet newM pkv.1 with
          | some _ => acc
          | none => assocSet acc pkv.1 pkv.2) acc =
      acc ++ l.filter (fun pkv => (assocGet newM pkv.1).isNone) := by
  intro l
  induction l with
  | nil => intro acc _ _; simp
  | cons pkv rest ih =>
    intro acc hn hinv
    have hn2 : KeysNodup rest := by
      unfold KeysNodup at hn ⊢
      simp only [List.map_cons, List.nodup_cons] at hn
      exact hn.2
    have hknotin : pkv.1 ∉ rest.map Prod.fst := by
      unfold KeysNodup at hn
      simp only [List.map_cons, List.nodup_cons] at hn
      exact hn.1
    have hinvrest0 : ∀ kv2 ∈ rest, assocGet newM kv2.1 = none →
        assocGet acc kv2.1 = none :=
      fun kv2 h2 => hinv kv2 (List.mem_cons_of_mem _ h2)
    simp only [List.foldl_cons, List.filter_cons]
    cases hm : assocGet newM pkv.1 with
    | some w =>
      cases hacc0 : assocGet acc pkv.1 with
      | some v =>
        dsimp only
        rw [ih acc hn2 hinvrest0]
        simp
      | none =>
        dsimp only
        rw [ih acc hn2 hinvrest0]
        simp
    | none =>
      have hacc0 : assocGet acc pkv.1 = none :=
        hinv pkv (List.mem_cons_self _ _) hm
      rw [hacc0]
      dsimp only
      rw [assocSet_append_absent hacc0]
      have hinvrest : ∀ kv2 ∈ rest, assocGet newM kv2.1 = none →
          assocGet (acc ++ [(pkv.1, pkv.2)]) kv2.1 = none := by
        intro kv2 h2 hnew2
        rw [assocGet_append_right (hinvrest0 kv2 h2 hnew2)]
        have hne : pkv.1 ≠ kv2.1 := by
          intro hh
          exact hknotin (hh ▸ List.mem_map.mpr ⟨kv2, h2, rfl⟩)
        simp [assocGet, hne]
      rw [ih (acc ++ [(pkv.1, pkv.2)]) hn2 hinvrest]
      simp

/-- Claim C3: for every pair of decodable map-column values, the computed map
delta contains exactly the keys that are new or changed (bound to their new
value) plus the keys present only in the previous map (bound to their previous
value); a key present in both sides with equal values is omitted. -/
theorem C3_map_delta (u : updater) (cs : ColumnSchema) (data prevData : GoVal)
    (newMap prevMap : OvsMap)
    (hnew : cs.UnmarshalMap data = .ok newMap)
    (hprev : cs.UnmarshalMap prevData = .ok prevMap)
    (hnodupN : KeysNodup newMap.GoMap)
    (hnodupP : KeysNodup prevMap.GoMap) :
    ∃ delta, u.compareMaps data prevData cs = .ok delta ∧
      ∀ k, assocGet delta.GoMap k =
        match assocGet newMap.GoMap k, assocGet prevMap.GoMap k with
        | some v, some pv => if v = pv then none else some v
        | some v, none => some v
        | none, some pv => some pv
        | none, none => none := by
  have hd1get : ∀ k, assocGet (newMap.GoMap.filter (fun kv =>
      match assocGet prevMap.GoMap kv.1 with
      | some pv => decide (kv.2 ≠ pv)
      | none => true)) k =
      match assocGet newMap.GoMap k with
      | some v => if (match assocGet prevMap.GoMap k with
          | some pv => decide (v ≠ pv)
          | none => true) = true then some v else none
      | none => none := by
    intro k
    rw [assocGet_filter _ newMap.GoMap hnodupN k]
    cases assocGet newMap.GoMap k <;> rfl
  have hf2 : ∀ k, assocGet (prevMap.GoMap.filter
      (fun pkv => (assocGet newMap.GoMap pkv.1).isNone)) k =
      match assocGet prevMap.GoMap k with
      | some pv =>
        if (assocGet newMap.GoMap k).isNone = true then some pv else none
      | none => none := by
    intro k
    rw [assocGet_filter _ prevMap.GoMap hnodupP k]
    cases assocGet prevMap.GoMap k <;> rfl
  have hinv : ∀ kv ∈ prevMap.GoMap, assocGet newMap.GoMap kv.1 = none →
      assocGet (newMap.GoMap.filter (fun kv =>
        match assocGet prevMap.GoMap kv.1 with
        | some pv => decide (kv.2 ≠ pv)
        | none => true)) kv.1 = none := by
    intro kv _ hnone
    have h := hd1get kv.1
    rw [hnone] at h
    exact h
  have h1 := compareMaps_phase1 prevMap.GoMap newMap.GoMap []
    hnodupN (fun kv _ => rfl)
  rw [List.nil_append] at h1
  have h2 := compareMaps_phase2 newMap.GoMap prevMap.GoMap
    (newMap.GoMap.filter (fun kv =>
      match assocGet prevMap.GoMap kv.1 with
      | some pv => decide (kv.2 ≠ pv)
      | none => true)) hnodupP hinv
  refine ⟨⟨(newMap.GoMap.filter (fun kv =>
      match assocGet prevMap.GoMap kv.1 with
      | some pv => decide (kv.2 ≠ pv)
      | none => true)) ++
      prevMap.GoMap.filter (fun pkv => (assocGet newMap.GoMap pkv.1).isNone)⟩,
    ?_, ?_⟩
  · unfold updater.compareMaps
    rw [hnew, hprev]
    dsimp only
    rw [h1, h2]
  · intro k
    have hd1 := hd1get k
    have hpart2 := hf2 k
    cases hnk : assocGet newMap.GoMap k with
    | some v =>
      rw [hnk] at hd1 hpart2
      cases hpk : assocGet prevMap.GoMap k with
      | some pv =>
        rw [hpk] at hd1 hpart2
        simp only [hnk, hpk]
        by_cases hvv : v = pv
        · have hd1none : assocGet (newMap.GoMap.filter (fun kv =>
              match assocGet prevMap.GoMap kv.1 with
              | some pv => decide (kv.2 ≠ pv)
              | none => true)) k = none := by
            rw [hd1]
            simp [hvv]
          rw [assocGet_append_right hd1none, hpart2]
          simp [hvv]
        · have hd1some : assocGet (newMap.GoMap.filter (fun kv =>
              match assocGet prevMap.GoMap kv.1 with
              | some pv => decide (kv.2 ≠ pv)
              | none => true)) k = some v := by
            rw [hd1]
            simp [hvv]
          rw [assocGet_append_left hd1some]
          simp [hvv]
      | none =>
        rw [hpk] at hd1
        simp only [hnk, hpk]
        have hd1some : assocGet (newMap.GoMap.filter (fun kv =>
            match assocGet prevMap.GoMap kv.1 with
            | some pv => decide (kv.2 ≠ pv)
            | none => true)) k = some v := by
          rw [hd1]
          simp
        rw [assocGet_append_left hd1some]
    | none =>
      rw [hnk] at hd1 hpart2
      rw [assocGet_append_right hd1, hpart2]
      cases hpk : assocGet prevMap.GoMap k with
      | some pv =>
        simp only [hnk, hpk]
        simp
      | none =>
        simp only [hnk, hpk]

/-- Claim C3 witness: the spec's concrete scenario — previous map a:1, b:2 and
new map a:1, b:3, c:4 decode from the wire values, the computed delta is
exactly b:3, c:4, and its lookups are none at a, 3 at b, 4 at c. -/
theorem C3_map_delta_witness :
    uC3.compareMaps mWirePost mWirePre csC3 =
      .ok ⟨[(GoVal.str "b", GoVal.num 3), (GoVal.str "c", GoVal.num 4)]⟩ ∧
      assocGet [(GoVal.str "b", GoVal.num 3), (GoVal.str "c", GoVal.num 4)]
        (GoVal.str "a") = none ∧
      assocGet [(GoVal.str "b", GoVal.num 3), (GoVal.str "c", GoVal.num 4)]
        (GoVal.str "b") = some (GoVal.num 3) ∧
      assocGet [(GoVal.str "b", GoVal.num 3), (GoVal.str "c", GoVal.num 4)]
        (GoVal.str "c") = some (GoVal.num 4) := by
  obtain ⟨delta, h1, h2⟩ := C3_map_delta uC3 csC3 mWirePost mWirePre
    ⟨[(GoVal.str "a", GoVal.num 1), (GoVal.str "b", GoVal.num 3),
      (GoVal.str "c", GoVal.num 4)]⟩
    ⟨[(GoVal.str "a", GoVal.num 1), (GoVal.str "b", GoVal.num 2)]⟩
    rfl rfl (by decide) (by decide)
  have hdelta : delta =
      ⟨[(GoVal.str "b", GoVal.num 3), (GoVal.str "c", GoVal.num 4)]⟩ := by
    have heval : uC3.compareMaps mWirePost mWirePre csC3 =
        .ok ⟨[(GoVal.str "b", GoVal.num 3), (GoVal.str "c", GoVal.num 4)]⟩ := by
      rfl
    rw [heval] at h1
    injection h1 with h1
    exact h1.symm
  subst hdelta
  exact ⟨h1, h2 (GoVal.str "a"), h2 (GoVal.str "b"), h2 (GoVal.str "c")⟩

end OvsdbEtcdMonitor
